import Mathlib

/-!
Shallow embedding of the quality-control core of the data-extraction tool
(`src/backend/app/services/{extraction,validation,grade,pdf}_service.py`).

Oracle-produced records are parsed JSON: Python dicts, lists, strings,
numbers, booleans and `None`.  We embed them as a mutual inductive so that
every traversal of the Python services becomes a plain mutual structural
recursion.  Numbers are embedded as rationals: the Python code computes with
floats, whose rounding at threshold comparisons we do not model; all claims
under study state their arithmetic over exact numbers.
-/

namespace DataExtraction

mutual

/-- A parsed JSON value (Python object produced by `json.loads`). -/
inductive Json where
  | null : Json
  | boolean (b : Bool) : Json
  | num (q : Rat) : Json
  | str (s : String) : Json
  | arr (items : JsonList) : Json
  | obj (entries : JsonObj) : Json
deriving DecidableEq

/-- A JSON array (Python list). -/
inductive JsonList where
  | nil : JsonList
  | cons (hd : Json) (tl : JsonList) : JsonList
deriving DecidableEq

/-- A JSON object (Python dict, entries in insertion order). -/
inductive JsonObj where
  | nil : JsonObj
  | cons (key : String) (val : Json) (tl : JsonObj) : JsonObj
deriving DecidableEq

end

/-- `k in d` for a Python dict. -/
def JsonObj.hasKey : JsonObj → String → Bool
  | .nil, _ => false
  | .cons k _ tl, key => k == key || tl.hasKey key

/-- Lookup of the first entry with the given key (Python dicts have unique
keys; parsed JSON keeps the last duplicate, so records never carry
duplicates, but the embedding is total on any entry list). -/
def JsonObj.get? : JsonObj → String → Option Json
  | .nil, _ => none
  | .cons k v tl, key => if k == key then some v else tl.get? key

/-- Python `d.get(key)`: `None` when the key is absent.  Parsed JSON cannot
distinguish an absent key's `None` from a stored JSON `null`. -/
def JsonObj.pyGet (d : JsonObj) (key : String) : Json :=
  (d.get? key).getD .null

/-- Python `d.get(key, default)`. -/
def JsonObj.pyGetD (d : JsonObj) (key : String) (dflt : Json) : Json :=
  (d.get? key).getD dflt

/-- Python `d[key] = v`: replace the first binding, else append. -/
def JsonObj.set : JsonObj → String → Json → JsonObj
  | .nil, key, v => .cons key v .nil
  | .cons k w tl, key, v =>
      if k == key then .cons k v tl else .cons k w (tl.set key v)

def JsonList.length : JsonList → Nat
  | .nil => 0
  | .cons _ tl => tl.length + 1

def JsonList.get? : JsonList → Nat → Option Json
  | .nil, _ => none
  | .cons hd _, 0 => some hd
  | .cons _ tl, n + 1 => tl.get? n

/-- The set `VALID_CONFIDENCE = {"high", "medium", "low"}` membership test
(`extraction_service.py:28`); non-string values are never members. -/
def validConfidence : Json → Bool
  | .str s => s == "high" || s == "medium" || s == "low"
  | _ => false

/-- The set `VALID_MISSING_REASONS` membership test
(`extraction_service.py:29`). -/
def validMissingReason : Json → Bool
  | .str s =>
      s == "not_reported" || s == "explicitly_absent" ||
      s == "not_applicable" || s == "unclear"
  | _ => false

/-- `field.get("value") is None` — true when the key is absent or null. -/
def valueIsNone (f : JsonObj) : Bool :=
  f.pyGet "value" == .null

/-- First statement block of `_normalize_field`
(`extraction_service.py:225-228`): default an invalid confidence. -/
def normalizeField1 (f : JsonObj) : JsonObj :=
  if validConfidence (f.pyGet "confidence") then f
  else f.set "confidence" (if valueIsNone f then .null else .str "low")

/-- Second block (`extraction_service.py:230-235`): force the
missing-reason contract. -/
def normalizeField2 (f1 : JsonObj) : JsonObj :=
  if valueIsNone f1 then
    if validMissingReason (f1.pyGet "missing_reason") then f1
    else f1.set "missing_reason" (.str "not_reported")
  else f1.set "missing_reason" .null

/-- Third block (`extraction_service.py:237-238`): default `quotes`. -/
def normalizeField3 (f2 : JsonObj) : JsonObj :=
  if f2.hasKey "quotes" then f2 else f2.set "quotes" (.arr .nil)

/-- `_normalize_field` (`extraction_service.py:223-238`): force the
confidence / missing-reason contract on a single field dict, mutating it in
place (embedded as a rewrite). -/
def normalizeField (f : JsonObj) : JsonObj :=
  normalizeField3 (normalizeField2 (normalizeField1 f))

mutual

/-- `_normalize_confidence_metadata` (`extraction_service.py:203-220`):
walk a record dict, normalizing every field dict the traversal recognizes. -/
def normMeta : JsonObj → JsonObj
  | .nil => .nil
  | .cons k v tl => .cons k (normMetaEntry v) (normMeta tl)

/-- One top-level entry of `_normalize_confidence_metadata`'s loop. -/
def normMetaEntry : Json → Json
  | .obj o =>
      if o.hasKey "value" && (o.hasKey "confidence" || o.hasKey "quotes")
      then .obj (normalizeField o)
      else .obj (normSection o)
  | .arr xs => .arr (normMetaList xs)
  | other => other

/-- The section branch of `_normalize_confidence_metadata` (lines 211-216):
dict sub-values with a `value` key are normalized as fields, other dict
sub-values are recursed into; list sub-values are skipped. -/
def normSection : JsonObj → JsonObj
  | .nil => .nil
  | .cons k v tl => .cons k (normSectionEntry v) (normSection tl)

def normSectionEntry : Json → Json
  | .obj o => if o.hasKey "value" then .obj (normalizeField o) else .obj (normMeta o)
  | other => other

/-- The list branch (lines 217-220): recurse into dict items only. -/
def normMetaList : JsonList → JsonList
  | .nil => .nil
  | .cons hd tl =>
      .cons (match hd with | .obj o => .obj (normMeta o) | other => other)
        (normMetaList tl)

end

theorem JsonObj.hasKey_set : ∀ (d : JsonObj) (k k' : String) (v : Json),
    (d.set k v).hasKey k' = (d.hasKey k' || k == k')
  | .nil, k, k', v => by simp [JsonObj.set, JsonObj.hasKey]
  | .cons k0 w tl, k, k', v => by
      by_cases h : k0 = k
      · subst h
        simp only [JsonObj.set, beq_self_eq_true, if_true, JsonObj.hasKey]
        cases hk : (k0 == k') <;> simp [hk]
      · simp only [JsonObj.set]
        rw [if_neg (by simpa using h)]
        simp only [JsonObj.hasKey, JsonObj.hasKey_set tl k k' v]
        cases hk : (k0 == k') <;> simp [hk, Bool.or_assoc]

theorem JsonObj.get?_set_self : ∀ (d : JsonObj) (k : String) (v : Json),
    (d.set k v).get? k = some v
  | .nil, k, v => by simp [JsonObj.set, JsonObj.get?]
  | .cons k0 w tl, k, v => by
      by_cases h : k0 = k
      · subst h; simp [JsonObj.set, JsonObj.get?]
      · simp only [JsonObj.set]
        rw [if_neg (by simpa using h)]
        simp only [JsonObj.get?]
        rw [if_neg (by simpa using h)]
        exact JsonObj.get?_set_self tl k v

theorem JsonObj.get?_set_ne : ∀ (d : JsonObj) (k k' : String) (v : Json),
    k ≠ k' → (d.set k v).get? k' = d.get? k'
  | .nil, k, k', v, h => by
      simp only [JsonObj.set, JsonObj.get?]
      rw [if_neg (by simpa using h)]
  | .cons k0 w tl, k, k', v, h => by
      by_cases h0 : k0 = k
      · subst h0
        simp only [JsonObj.set, beq_self_eq_true, if_true, JsonObj.get?]
        rw [if_neg (by simpa using h), if_neg (by simpa using h)]
      · simp only [JsonObj.set]
        rw [if_neg (by simpa using h0)]
        simp only [JsonObj.get?]
        by_cases h1 : k0 = k'
        · subst h1; simp
        · rw [if_neg (by simpa using h1), if_neg (by simpa using h1)]
          exact JsonObj.get?_set_ne tl k k' v h

theorem JsonObj.pyGet_set_self (d : JsonObj) (k : String) (v : Json) :
    (d.set k v).pyGet k = v := by
  simp [JsonObj.pyGet, JsonObj.get?_set_self]

theorem JsonObj.pyGet_set_ne (d : JsonObj) (k k' : String) (v : Json)
    (h : k ≠ k') : (d.set k v).pyGet k' = d.pyGet k' := by
  simp [JsonObj.pyGet, JsonObj.get?_set_ne d k k' v h]

theorem valueIsNone_set_confidence (f : JsonObj) (v : Json) :
    valueIsNone (f.set "confidence" v) = valueIsNone f := by
  unfold valueIsNone
  rw [JsonObj.pyGet_set_ne f "confidence" "value" v (by decide)]

theorem valueIsNone_set_reason (f : JsonObj) (v : Json) :
    valueIsNone (f.set "missing_reason" v) = valueIsNone f := by
  unfold valueIsNone
  rw [JsonObj.pyGet_set_ne f "missing_reason" "value" v (by decide)]

theorem valueIsNone_set_quotes (f : JsonObj) (v : Json) :
    valueIsNone (f.set "quotes" v) = valueIsNone f := by
  unfold valueIsNone
  rw [JsonObj.pyGet_set_ne f "quotes" "value" v (by decide)]

/-- Postcondition the normalizer actually establishes at every field it
visits: `value is None ⇔ missing_reason valid`; `value present ⇒
missing_reason null`; `value absent ⇒ confidence null or still one of the
three valid labels` (a valid label supplied by the oracle for a null-valued
field is kept, `extraction_service.py:226-228`). -/
def normFieldOk (f : JsonObj) : Bool :=
  (valueIsNone f == validMissingReason (f.pyGet "missing_reason")) &&
  (valueIsNone f || f.pyGet "missing_reason" == .null) &&
  (!valueIsNone f ||
    (f.pyGet "confidence" == .null || validConfidence (f.pyGet "confidence")))

theorem valueIsNone_normalizeField1 (f : JsonObj) :
    valueIsNone (normalizeField1 f) = valueIsNone f := by
  unfold normalizeField1
  split
  · rfl
  · exact valueIsNone_set_confidence f _

theorem valueIsNone_normalizeField2 (f : JsonObj) :
    valueIsNone (normalizeField2 f) = valueIsNone f := by
  unfold normalizeField2
  split
  · split
    · rfl
    · exact valueIsNone_set_reason f _
  · exact valueIsNone_set_reason f _

theorem valueIsNone_normalizeField3 (f : JsonObj) :
    valueIsNone (normalizeField3 f) = valueIsNone f := by
  unfold normalizeField3
  split
  · rfl
  · exact valueIsNone_set_quotes f _

theorem conf_normalizeField1 (f : JsonObj) (h : valueIsNone f = true) :
    ((normalizeField1 f).pyGet "confidence" == Json.null ||
      validConfidence ((normalizeField1 f).pyGet "confidence")) = true := by
  unfold normalizeField1
  split
  · rename_i hv
    simp [hv]
  all_goals simp_all [JsonObj.pyGet_set_self]

theorem conf_normalizeField2 (f : JsonObj) :
    (normalizeField2 f).pyGet "confidence" = f.pyGet "confidence" := by
  unfold normalizeField2
  split
  · split
    · rfl
    · exact JsonObj.pyGet_set_ne f _ _ _ (by decide)
  · exact JsonObj.pyGet_set_ne f _ _ _ (by decide)

theorem conf_normalizeField3 (f : JsonObj) :
    (normalizeField3 f).pyGet "confidence" = f.pyGet "confidence" := by
  unfold normalizeField3
  split
  · rfl
  · exact JsonObj.pyGet_set_ne f _ _ _ (by decide)

theorem reason_normalizeField2 (f : JsonObj) :
    validMissingReason ((normalizeField2 f).pyGet "missing_reason") =
      valueIsNone f := by
  unfold normalizeField2
  split
  · rename_i hv
    split
    · rename_i hr; rw [hr, hv]
    · rw [JsonObj.pyGet_set_self, hv]; rfl
  · rename_i hv
    rw [JsonObj.pyGet_set_self]
    have hfalse : valueIsNone f = false := by
      cases hx : valueIsNone f
      · rfl
      · exact absurd hx hv
    rw [hfalse]
    rfl

theorem reason_null_normalizeField2 (f : JsonObj) (h : valueIsNone f = false) :
    (normalizeField2 f).pyGet "missing_reason" = Json.null := by
  unfold normalizeField2
  rw [h]
  simp [JsonObj.pyGet_set_self]

theorem reason_normalizeField3 (f : JsonObj) :
    (normalizeField3 f).pyGet "missing_reason" = f.pyGet "missing_reason" := by
  unfold normalizeField3
  split
  · rfl
  · exact JsonObj.pyGet_set_ne f _ _ _ (by decide)

theorem normFieldOk_normalizeField (f : JsonObj) :
    normFieldOk (normalizeField f) = true := by
  unfold normFieldOk normalizeField
  rw [valueIsNone_normalizeField3, valueIsNone_normalizeField2,
    valueIsNone_normalizeField1, reason_normalizeField3,
    conf_normalizeField3, conf_normalizeField2]
  cases hv : valueIsNone f
  · have hr := reason_null_normalizeField2 (normalizeField1 f)
      (by rw [valueIsNone_normalizeField1, hv])
    rw [hr]
    have := reason_normalizeField2 (normalizeField1 f)
    rw [hr, valueIsNone_normalizeField1, hv] at this
    simp [this]
  · have hrv := reason_normalizeField2 (normalizeField1 f)
    rw [valueIsNone_normalizeField1, hv] at hrv
    have hc := conf_normalizeField1 f hv
    simp [hrv, hc]

theorem hasKey_value_normalizeField1 (f : JsonObj) :
    (normalizeField1 f).hasKey "value" = f.hasKey "value" := by
  unfold normalizeField1
  split
  · rfl
  · rw [JsonObj.hasKey_set]; simp

theorem hasKey_value_normalizeField2 (f : JsonObj) :
    (normalizeField2 f).hasKey "value" = f.hasKey "value" := by
  unfold normalizeField2
  split
  · split
    · rfl
    · rw [JsonObj.hasKey_set]; simp
  · rw [JsonObj.hasKey_set]; simp

theorem hasKey_value_normalizeField3 (f : JsonObj) :
    (normalizeField3 f).hasKey "value" = f.hasKey "value" := by
  unfold normalizeField3
  split
  · rfl
  · rw [JsonObj.hasKey_set]; simp

theorem hasKey_value_normalizeField (f : JsonObj) :
    (normalizeField f).hasKey "value" = f.hasKey "value" := by
  unfold normalizeField
  rw [hasKey_value_normalizeField3, hasKey_value_normalizeField2,
    hasKey_value_normalizeField1]

theorem hasKey_quotes_normalizeField (f : JsonObj) :
    (normalizeField f).hasKey "quotes" = true := by
  unfold normalizeField normalizeField3
  split
  · rename_i h; exact h
  · simp [JsonObj.hasKey_set]

theorem hasKey_normMeta : ∀ (o : JsonObj) (k : String),
    (normMeta o).hasKey k = o.hasKey k
  | .nil, _ => rfl
  | .cons k0 v tl, k => by
      simp only [normMeta, JsonObj.hasKey, hasKey_normMeta tl k]

theorem hasKey_normSection : ∀ (o : JsonObj) (k : String),
    (normSection o).hasKey k = o.hasKey k
  | .nil, _ => rfl
  | .cons k0 v tl, k => by
      simp only [normSection, JsonObj.hasKey, hasKey_normSection tl k]

mutual

/-- Checker mirroring the traversal of `_normalize_confidence_metadata`:
`normFieldOk` must hold at exactly the dict nodes the traversal treats as
fields. -/
def normOk : JsonObj → Bool
  | .nil => true
  | .cons _ v tl => normOkEntry v && normOk tl

def normOkEntry : Json → Bool
  | .obj o =>
      if o.hasKey "value" && (o.hasKey "confidence" || o.hasKey "quotes")
      then normFieldOk o
      else normOkSection o
  | .arr xs => normOkList xs
  | _ => true

def normOkSection : JsonObj → Bool
  | .nil => true
  | .cons _ v tl => normOkSectionEntry v && normOkSection tl

def normOkSectionEntry : Json → Bool
  | .obj o => if o.hasKey "value" then normFieldOk o else normOk o
  | _ => true

def normOkList : JsonList → Bool
  | .nil => true
  | .cons hd tl =>
      (match hd with | .obj o => normOk o | _ => true) && normOkList tl

end

mutual

theorem normOk_normMeta : ∀ d : JsonObj, normOk (normMeta d) = true
  | .nil => rfl
  | .cons k v tl => by
      simp only [normMeta, normOk, normOkEntry_normMetaEntry v,
        normOk_normMeta tl, Bool.and_self]

theorem normOkEntry_normMetaEntry : ∀ v : Json, normOkEntry (normMetaEntry v) = true
  | .null | .boolean _ | .num _ | .str _ => rfl
  | .obj o => by
      simp only [normMetaEntry]
      split
      · rename_i h
        simp only [normOkEntry, hasKey_value_normalizeField,
          hasKey_quotes_normalizeField]
        have hv : o.hasKey "value" = true := by
          cases hx : o.hasKey "value" <;> simp [hx] at h ⊢
        rw [hv]
        simp [normFieldOk_normalizeField]
      · rename_i h
        simp only [normOkEntry, hasKey_normSection]
        rw [if_neg h]
        exact normOkSection_normSection o
  | .arr xs => by
      simp only [normMetaEntry, normOkEntry]
      exact normOkList_normMetaList xs

theorem normOkSection_normSection : ∀ o : JsonObj, normOkSection (normSection o) = true
  | .nil => rfl
  | .cons k v tl => by
      simp only [normSection, normOkSection, normOkSectionEntry_normSectionEntry v,
        normOkSection_normSection tl, Bool.and_self]

theorem normOkSectionEntry_normSectionEntry :
    ∀ v : Json, normOkSectionEntry (normSectionEntry v) = true
  | .null | .boolean _ | .num _ | .str _ => rfl
  | .obj o => by
      simp only [normSectionEntry]
      split
      · rename_i h
        simp only [normOkSectionEntry, hasKey_value_normalizeField]
        rw [if_pos h]
        exact normFieldOk_normalizeField o
      · rename_i h
        simp only [normOkSectionEntry, hasKey_normMeta]
        rw [if_neg h]
        exact normOk_normMeta o
  | .arr xs => by simp [normSectionEntry, normOkSectionEntry]

theorem normOkList_normMetaList : ∀ xs : JsonList, normOkList (normMetaList xs) = true
  | .nil => rfl
  | .cons hd tl => by
      cases hd <;>
        simp only [normMetaList, normOkList, normOkList_normMetaList tl,
          Bool.and_true, normOk_normMeta]

end

/-- The per-field property claimed in C2, read off the claim's words:
`value is None ⇔ missing_reason valid`, `value present ⇒ missing_reason
absent`, `value absent ⇒ confidence absent` (a key stored as JSON `null`
counts as absent, as Python's `.get` cannot distinguish the two). -/
def claimC2Field (f : JsonObj) : Bool :=
  (valueIsNone f == validMissingReason (f.pyGet "missing_reason")) &&
  (valueIsNone f || f.pyGet "missing_reason" == .null) &&
  (!valueIsNone f || f.pyGet "confidence" == .null)

mutual

/-- C2's quantifier: `claimC2Field` at every dict-like node having a
`value` key, anywhere in the tree. -/
def claimC2All : Json → Bool
  | .obj o => (!o.hasKey "value" || claimC2Field o) && claimC2AllObj o
  | .arr xs => claimC2AllList xs
  | _ => true

def claimC2AllObj : JsonObj → Bool
  | .nil => true
  | .cons _ v tl => claimC2All v && claimC2AllObj tl

def claimC2AllList : JsonList → Bool
  | .nil => true
  | .cons hd tl => claimC2All hd && claimC2AllList tl

end

/-- A record with two problem fields: `sec.f1` has a null value with a
*valid* confidence label, which `_normalize_field` keeps; top-level `g` has
a `value` key but neither `confidence` nor `quotes`, so the traversal treats
it as a section and never normalizes it. -/
def c2Record : JsonObj :=
  .cons "sec"
    (.obj (.cons "f1"
      (.obj (.cons "value" .null
        (.cons "confidence" (.str "high")
          (.cons "quotes" (.arr .nil) .nil)))) .nil))
    (.cons "g" (.obj (.cons "value" .null .nil)) .nil)

/-- C2, as stated, is false: after `_normalize_confidence_metadata` runs on
`c2Record`, the field `sec.f1` still has `value = null` with
`confidence = "high"` (violating `value absent ⇒ confidence absent`), and
the node `g = {"value": null}` — dict-like with a `value` key — never
receives a `missing_reason` (violating `value None ⇒ missing_reason valid`). -/
theorem c2_field_invariant_counterexample :
    claimC2All (.obj (normMeta c2Record)) = false := by decide

/-- C2 (amended): after the Field Normalizer runs on any record, every
field that its traversal visits (a top-level dict with `value` and
`confidence`-or-`quotes` keys, a dict directly under a section with a
`value` key, or such nodes inside recursed sub-dicts and list items)
satisfies: `value is None ⇔ missing_reason is one of the four valid
labels`; `value present ⇒ missing_reason is null`; and `value absent ⇒
confidence is null or one of the three valid labels` (an oracle-supplied
valid label on a null-valued field is kept, not cleared). -/
theorem c2_field_invariant_amended (d : JsonObj) :
    normOk (normMeta d) = true :=
  normOk_normMeta d

/-- Per-section counters of `_compute_completeness`
(`extraction_service.py:263`). -/
structure SectionStats where
  total : Nat
  extracted : Nat
  missing : Nat
  low_confidence : Nat
deriving DecidableEq

/-- The `missing_reasons` tallies (`extraction_service.py:251-256`). -/
structure MissingReasons where
  not_reported : Nat
  explicitly_absent : Nat
  not_applicable : Nat
  unclear : Nat
deriving DecidableEq

/-- The global counters of `_compute_completeness`
(`extraction_service.py:243-257`), `by_section` kept separately. -/
structure GlobalStats where
  total_fields : Nat
  extracted : Nat
  missing : Nat
  low_confidence : Nat
  medium_confidence : Nat
  high_confidence : Nat
  missing_reasons : MissingReasons
deriving DecidableEq

def zeroSection : SectionStats := ⟨0, 0, 0, 0⟩

def zeroGlobal : GlobalStats := ⟨0, 0, 0, 0, 0, 0, ⟨0, 0, 0, 0⟩⟩

/-- The field-counting body of `_count_fields_in_dict`
(`extraction_service.py:284-302`), with the increments of each control path
gathered into one record update. -/
def countOneField (val : JsonObj) (g : GlobalStats) (s : SectionStats) :
    GlobalStats × SectionStats :=
  if val.pyGet "value" != Json.null then
    match val.pyGetD "confidence" (.str "low") with
    | .str "high" =>
        ({ g with
            total_fields := g.total_fields + 1
            extracted := g.extracted + 1
            high_confidence := g.high_confidence + 1 },
         { s with total := s.total + 1, extracted := s.extracted + 1 })
    | .str "medium" =>
        ({ g with
            total_fields := g.total_fields + 1
            extracted := g.extracted + 1
            medium_confidence := g.medium_confidence + 1 },
         { s with total := s.total + 1, extracted := s.extracted + 1 })
    | _ =>
        ({ g with
            total_fields := g.total_fields + 1
            extracted := g.extracted + 1
            low_confidence := g.low_confidence + 1 },
         { s with
            total := s.total + 1
            extracted := s.extracted + 1
            low_confidence := s.low_confidence + 1 })
  else
    match val.pyGetD "missing_reason" (.str "not_reported") with
    | .str "not_reported" =>
        ({ g with
            total_fields := g.total_fields + 1
            missing := g.missing + 1
            missing_reasons :=
              { g.missing_reasons with
                  not_reported := g.missing_reasons.not_reported + 1 } },
         { s with total := s.total + 1, missing := s.missing + 1 })
    | .str "explicitly_absent" =>
        ({ g with
            total_fields := g.total_fields + 1
            missing := g.missing + 1
            missing_reasons :=
              { g.missing_reasons with
                  explicitly_absent := g.missing_reasons.explicitly_absent + 1 } },
         { s with total := s.total + 1, missing := s.missing + 1 })
    | .str "not_applicable" =>
        ({ g with
            total_fields := g.total_fields + 1
            missing := g.missing + 1
            missing_reasons :=
              { g.missing_reasons with
                  not_applicable := g.missing_reasons.not_applicable + 1 } },
         { s with total := s.total + 1, missing := s.missing + 1 })
    | .str "unclear" =>
        ({ g with
            total_fields := g.total_fields + 1
            missing := g.missing + 1
            missing_reasons :=
              { g.missing_reasons with
                  unclear := g.missing_reasons.unclear + 1 } },
         { s with total := s.total + 1, missing := s.missing + 1 })
    | _ =>
        ({ g with total_fields := g.total_fields + 1, missing := g.missing + 1 },
         { s with total := s.total + 1, missing := s.missing + 1 })

mutual

/-- `_count_fields_in_dict` (`extraction_service.py:278-308`), with the
mutated `stats` / `section_stats` dicts threaded as a pair. -/
def countFieldsInDict : JsonObj → GlobalStats × SectionStats → GlobalStats × SectionStats
  | .nil, st => st
  | .cons k v tl, st => countFieldsInDict tl (countFieldsEntry k v st)

/-- The loop body of `_count_fields_in_dict` for one `(key, val)` entry. -/
def countFieldsEntry (k : String) (v : Json) (st : GlobalStats × SectionStats) :
    GlobalStats × SectionStats :=
  if k == "source_locations" || k == "quotes" then st
  else
    match v with
    | .obj o =>
        if o.hasKey "value" then countOneField o st.1 st.2
        else countFieldsInDict o st
    | .arr xs => countFieldsInList xs st
    | _ => st

/-- The list branch (`extraction_service.py:305-308`): recurse into dict
items only. -/
def countFieldsInList : JsonList → GlobalStats × SectionStats → GlobalStats × SectionStats
  | .nil, st => st
  | .cons hd tl, st =>
      countFieldsInList tl
        (match hd with | .obj o => countFieldsInDict o st | _ => st)

end

/-- The per-section dispatch of `_compute_completeness`
(`extraction_service.py:265-270`): dict sections are counted directly, list
sections count their dict items, anything else counts nothing. -/
def sectionDispatch (v : Json) (st : GlobalStats × SectionStats) :
    GlobalStats × SectionStats :=
  match v with
  | .obj o => countFieldsInDict o st
  | .arr xs => countFieldsInList xs st
  | _ => st

/-- Python dict assignment `by_section[key] = stats`. -/
def setSection : List (String × SectionStats) → String → SectionStats →
    List (String × SectionStats)
  | [], k, s => [(k, s)]
  | (k0, s0) :: tl, k, s =>
      if k0 == k then (k0, s) :: tl else (k0, s0) :: setSection tl k s

def lookupSection : List (String × SectionStats) → String → Option SectionStats
  | [], _ => none
  | (k0, s0) :: tl, k => if k0 == k then some s0 else lookupSection tl k

/-- The top-level keys `_compute_completeness` skips
(`extraction_service.py:260`). -/
def excludedKey (k : String) : Bool :=
  k == "error" || k == "raw_text" || k == "custom_fields"

/-- The section loop of `_compute_completeness`
(`extraction_service.py:259-273`). -/
def computeCompletenessLoop : JsonObj → GlobalStats → List (String × SectionStats) →
    GlobalStats × List (String × SectionStats)
  | .nil, g, bs => (g, bs)
  | .cons k v tl, g, bs =>
      if excludedKey k then computeCompletenessLoop tl g bs
      else
        computeCompletenessLoop tl (sectionDispatch v (g, zeroSection)).1
          (if (sectionDispatch v (g, zeroSection)).2.total > 0
           then setSection bs k (sectionDispatch v (g, zeroSection)).2
           else bs)

/-- `_compute_completeness` (`extraction_service.py:241-275`): the global
counters plus the `by_section` mapping. -/
def computeCompleteness (d : JsonObj) :
    GlobalStats × List (String × SectionStats) :=
  computeCompletenessLoop d zeroGlobal []

/-- The two counting identities claimed in C5. -/
def statsConsistent (g : GlobalStats) : Prop :=
  g.extracted + g.missing = g.total_fields ∧
  g.high_confidence + g.medium_confidence + g.low_confidence = g.extracted

theorem countOneField_consistent (val : JsonObj) (g : GlobalStats)
    (s : SectionStats) (h : statsConsistent g) :
    statsConsistent (countOneField val g s).1 := by
  obtain ⟨h1, h2⟩ := h
  unfold countOneField
  split <;> split <;> exact ⟨by dsimp only; omega, by dsimp only; omega⟩

mutual

theorem countFieldsInDict_consistent : ∀ (d : JsonObj)
    (st : GlobalStats × SectionStats), statsConsistent st.1 →
    statsConsistent (countFieldsInDict d st).1
  | .nil, _, h => h
  | .cons k v tl, st, h =>
      countFieldsInDict_consistent tl _ (countFieldsEntry_consistent k v st h)

theorem countFieldsEntry_consistent : ∀ (k : String) (v : Json)
    (st : GlobalStats × SectionStats), statsConsistent st.1 →
    statsConsistent (countFieldsEntry k v st).1
  | k, .obj o, st, h => by
      simp only [countFieldsEntry]
      split
      · exact h
      · split
        · exact countOneField_consistent o st.1 st.2 h
        · exact countFieldsInDict_consistent o st h
  | k, .arr xs, st, h => by
      simp only [countFieldsEntry]
      split
      · exact h
      · exact countFieldsInList_consistent xs st h
  | k, .null, st, h => by simp only [countFieldsEntry]; split <;> exact h
  | k, .boolean _, st, h => by simp only [countFieldsEntry]; split <;> exact h
  | k, .num _, st, h => by simp only [countFieldsEntry]; split <;> exact h
  | k, .str _, st, h => by simp only [countFieldsEntry]; split <;> exact h

theorem countFieldsInList_consistent : ∀ (xs : JsonList)
    (st : GlobalStats × SectionStats), statsConsistent st.1 →
    statsConsistent (countFieldsInList xs st).1
  | .nil, _, h => h
  | .cons hd tl, st, h => by
      cases hd <;> simp only [countFieldsInList] <;>
        first
          | exact countFieldsInList_consistent tl st h
          | exact countFieldsInList_consistent tl _
              (countFieldsInDict_consistent _ st h)

end

theorem sectionDispatch_consistent (v : Json) (st : GlobalStats × SectionStats)
    (h : statsConsistent st.1) : statsConsistent (sectionDispatch v st).1 := by
  unfold sectionDispatch
  cases v <;>
    first
      | exact h
      | exact countFieldsInDict_consistent _ st h
      | exact countFieldsInList_consistent _ st h

theorem computeCompletenessLoop_consistent : ∀ (d : JsonObj) (g : GlobalStats)
    (bs : List (String × SectionStats)), statsConsistent g →
    statsConsistent (computeCompletenessLoop d g bs).1
  | .nil, _, _, h => h
  | .cons k v tl, g, bs, h => by
      unfold computeCompletenessLoop
      split
      · exact computeCompletenessLoop_consistent tl g bs h
      · exact computeCompletenessLoop_consistent tl _ _
          (sectionDispatch_consistent v (g, zeroSection) h)

/-- C5: for every record, the CompletenessSummary produced by
`_compute_completeness` satisfies `extracted + missing == total_fields` and
`high_confidence + medium_confidence + low_confidence == extracted`.  (The
claim restricts to normalized records; the identities hold for every
record, since each counted field increments `total_fields`, exactly one of
`extracted`/`missing`, and — when extracted — exactly one confidence
bucket.) -/
theorem c5_completeness_counts_consistent (d : JsonObj) :
    statsConsistent (computeCompleteness d).1 :=
  computeCompletenessLoop_consistent d zeroGlobal [] ⟨rfl, rfl⟩

/-- A record with the excluded top-level keys `error`, `raw_text`,
`custom_fields` removed. -/
def removeExcludedTop : JsonObj → JsonObj
  | .nil => .nil
  | .cons k v tl =>
      if excludedKey k then removeExcludedTop tl
      else .cons k v (removeExcludedTop tl)

theorem computeCompletenessLoop_removeExcluded : ∀ (d : JsonObj)
    (g : GlobalStats) (bs : List (String × SectionStats)),
    computeCompletenessLoop (removeExcludedTop d) g bs =
      computeCompletenessLoop d g bs
  | .nil, _, _ => rfl
  | .cons k v tl, g, bs => by
      simp only [removeExcludedTop]
      split
      · rename_i hk
        rw [computeCompletenessLoop_removeExcluded tl g bs]
        simp only [computeCompletenessLoop]
        rw [if_pos hk]
      · rename_i hk
        simp only [computeCompletenessLoop]
        rw [if_neg hk, if_neg hk]
        exact computeCompletenessLoop_removeExcluded tl _ _

theorem lookupSection_setSection : ∀ (bs : List (String × SectionStats))
    (k0 k : String) (s : SectionStats),
    (lookupSection (setSection bs k0 s) k).isSome =
      ((k0 == k) || (lookupSection bs k).isSome)
  | [], k0, k, s => by
      by_cases h : k0 = k <;> simp [setSection, lookupSection, h]
  | (k1, s1) :: tl, k0, k, s => by
      by_cases h10 : k1 = k0
      · subst h10
        by_cases h1k : k1 = k <;>
          simp [setSection, lookupSection, h1k]
      · by_cases h1k : k1 = k
        · subst h1k
          simp only [setSection, lookupSection,
            (by simpa using h10 : (k1 == k0) = false), Bool.false_eq_true,
            if_false, beq_self_eq_true, if_true, Option.isSome_some,
            Bool.true_eq]
          simp [Ne.symm h10]
        · simp [setSection, lookupSection,
            (by simpa using h10 : (k1 == k0) = false),
            (by simpa using h1k : (k1 == k) = false),
            lookupSection_setSection tl k0 k s]

theorem countOneField_si (val : JsonObj) (g g' : GlobalStats)
    (s : SectionStats) :
    (countOneField val g s).2 = (countOneField val g' s).2 := by
  unfold countOneField
  split <;> split <;> rfl

mutual

theorem countFieldsInDict_si : ∀ (d : JsonObj)
    (st st' : GlobalStats × SectionStats), st.2 = st'.2 →
    (countFieldsInDict d st).2 = (countFieldsInDict d st').2
  | .nil, _, _, h => h
  | .cons k v tl, st, st', h => by
      simp only [countFieldsInDict]
      exact countFieldsInDict_si tl _ _ (countFieldsEntry_si k v st st' h)

theorem countFieldsEntry_si : ∀ (k : String) (v : Json)
    (st st' : GlobalStats × SectionStats), st.2 = st'.2 →
    (countFieldsEntry k v st).2 = (countFieldsEntry k v st').2
  | k, .obj o, st, st', h => by
      simp only [countFieldsEntry]
      split
      · exact h
      · split
        · rw [h]; exact countOneField_si o st.1 st'.1 st'.2
        · exact countFieldsInDict_si o st st' h
  | k, .arr xs, st, st', h => by
      simp only [countFieldsEntry]
      split
      · exact h
      · exact countFieldsInList_si xs st st' h
  | k, .null, st, st', h => by simp only [countFieldsEntry]; split <;> exact h
  | k, .boolean _, st, st', h => by
      simp only [countFieldsEntry]; split <;> exact h
  | k, .num _, st, st', h => by simp only [countFieldsEntry]; split <;> exact h
  | k, .str _, st, st', h => by simp only [countFieldsEntry]; split <;> exact h

theorem countFieldsInList_si : ∀ (xs : JsonList)
    (st st' : GlobalStats × SectionStats), st.2 = st'.2 →
    (countFieldsInList xs st).2 = (countFieldsInList xs st').2
  | .nil, _, _, h => h
  | .cons hd tl, st, st', h => by
      cases hd <;> simp only [countFieldsInList] <;>
        first
          | exact countFieldsInList_si tl st st' h
          | exact countFieldsInList_si tl _ _
              (countFieldsInDict_si _ st st' h)

end

theorem sectionDispatch_si (v : Json) (st st' : GlobalStats × SectionStats)
    (h : st.2 = st'.2) : (sectionDispatch v st).2 = (sectionDispatch v st').2 := by
  unfold sectionDispatch
  cases v <;>
    first
      | exact h
      | exact countFieldsInDict_si _ st st' h
      | exact countFieldsInList_si _ st st' h

/-- The section counters a top-level section value receives, computed from
zeroed state; by `sectionDispatch_si` this is what any run of the loop
assigns. -/
def sectionCountOf (v : Json) : SectionStats :=
  (sectionDispatch v (zeroGlobal, zeroSection)).2

/-- Whether `(k, v)` is an entry of the (top level of the) record. -/
def JsonObj.memEntry : JsonObj → String → Json → Bool
  | .nil, _, _ => false
  | .cons k0 v0 tl, k, v => (k0 == k && v0 == v) || tl.memEntry k v

theorem lookup_computeCompletenessLoop : ∀ (d : JsonObj) (g : GlobalStats)
    (bs : List (String × SectionStats)) (k : String),
    ((lookupSection (computeCompletenessLoop d g bs).2 k).isSome = true ↔
      ((lookupSection bs k).isSome = true ∨
        ∃ v, d.memEntry k v = true ∧ excludedKey k = false ∧
          (sectionCountOf v).total > 0))
  | .nil, g, bs, k => by
      simp [computeCompletenessLoop, JsonObj.memEntry]
  | .cons k0 v0 tl, g, bs, k => by
      have hsec : (sectionDispatch v0 (g, zeroSection)).2 = sectionCountOf v0 :=
        sectionDispatch_si v0 (g, zeroSection) (zeroGlobal, zeroSection) rfl
      simp only [computeCompletenessLoop]
      split
      · rename_i hex
        rw [lookup_computeCompletenessLoop tl g bs k]
        simp only [JsonObj.memEntry]
        constructor
        · rintro (h | ⟨v, hv, hke, ht⟩)
          · exact Or.inl h
          · exact Or.inr ⟨v, by simp [hv], hke, ht⟩
        · rintro (h | ⟨v, hv, hke, ht⟩)
          · exact Or.inl h
          · simp only [Bool.or_eq_true, Bool.and_eq_true, beq_iff_eq] at hv
            rcases hv with ⟨hk0, _⟩ | hv
            · subst hk0; rw [hex] at hke; cases hke
            · exact Or.inr ⟨v, hv, hke, ht⟩
      · rename_i hex
        have hex' : excludedKey k0 = false := by
          cases hx : excludedKey k0
          · rfl
          · exact absurd hx hex
        rw [lookup_computeCompletenessLoop tl _ _ k]
        simp only [JsonObj.memEntry]
        split
        · -- section was added: total > 0
          rename_i hts
          rw [hsec] at hts
          rw [lookupSection_setSection]
          constructor
          · intro hcase
            rcases hcase with hin | hrest
            · rcases Bool.or_eq_true _ _ |>.mp hin with hk0k | hbs
              · refine Or.inr ⟨v0, ?_, ?_, hts⟩
                · simp [hk0k]
                · rw [← (beq_iff_eq.mp hk0k)]; exact hex'
              · exact Or.inl hbs
            · rcases hrest with ⟨v, hv, hke, ht⟩
              exact Or.inr ⟨v, by simp [hv], hke, ht⟩
          · rintro (h | ⟨v, hv, hke, ht⟩)
            · exact Or.inl (by simp [h])
            · simp only [Bool.or_eq_true, Bool.and_eq_true, beq_iff_eq] at hv
              rcases hv with ⟨hk0, hv0⟩ | hv
              · exact Or.inl (by simp [hk0])
              · exact Or.inr ⟨v, hv, hke, ht⟩
        · -- section not added: total = 0
          rename_i hts
          rw [hsec] at hts
          constructor
          · rintro (h | ⟨v, hv, hke, ht⟩)
            · exact Or.inl h
            · exact Or.inr ⟨v, by simp [hv], hke, ht⟩
          · rintro (h | ⟨v, hv, hke, ht⟩)
            · exact Or.inl h
            · simp only [Bool.or_eq_true, Bool.and_eq_true, beq_iff_eq] at hv
              rcases hv with ⟨hk0, hv0⟩ | hv
              · subst hk0; subst hv0; exact absurd ht hts
              · exact Or.inr ⟨v, hv, hke, ht⟩

/-- C10: `_compute_completeness` excludes the top-level keys `error`,
`raw_text`, `custom_fields` from all counts — computing completeness of a
record equals computing it on the record with those keys removed — and its
`by_section` mapping contains exactly the (non-excluded) top-level sections
whose value yielded at least one counted Field (`total > 0`). -/
theorem c10_completeness_sections (d : JsonObj) (k : String) :
    computeCompleteness (removeExcludedTop d) = computeCompleteness d ∧
    ((lookupSection (computeCompleteness d).2 k).isSome = true ↔
      ∃ v, d.memEntry k v = true ∧ excludedKey k = false ∧
        (sectionCountOf v).total > 0) := by
  constructor
  · exact computeCompletenessLoop_removeExcluded d zeroGlobal []
  · rw [computeCompleteness, lookup_computeCompletenessLoop d zeroGlobal [] k]
    simp [lookupSection]

/-- `conf_order.get(conf, 0)` with `conf_order = {"high": 3, "medium": 2,
"low": 1}` (`extraction_service.py:344-346`). -/
def confOrder : Json → Nat
  | .str "high" => 3
  | .str "medium" => 2
  | .str "low" => 1
  | _ => 0

/-- `field.get("value") is not None`. -/
def valuePresent (f : JsonObj) : Bool := f.pyGet "value" != Json.null

/-- The replacement condition of `_merge_verification_pass`
(`extraction_service.py:342-348`): the verification field's confidence is
strictly higher (both read with `.get("confidence", "low")`), or the
original has no value and the patch supplies one. -/
def replaceCond (oo vo : JsonObj) : Bool :=
  decide (confOrder (oo.pyGetD "confidence" (.str "low")) <
    confOrder (vo.pyGetD "confidence" (.str "low"))) ||
  (oo.pyGet "value" == Json.null && vo.pyGet "value" != Json.null)

mutual

/-- `_merge_verification_pass` (`extraction_service.py:333-358`): iterate
the verification dict's entries in order, updating the original in place;
keys absent from the original are skipped. -/
def mergeObj : JsonObj → JsonObj → JsonObj
  | okvs, .nil => okvs
  | okvs, .cons k v tl =>
      mergeObj
        (match okvs.get? k with
         | none => okvs
         | some ov => okvs.set k (mergeEntryVal ov v))
        tl

/-- The per-key body of the merge loop: dict patch values replace or
recurse (`extraction_service.py:338-352`), list patch values merge
positionally (`extraction_service.py:353-357`), any other patch value
leaves the original entry unchanged.  Merging a dict into a non-dict
original entry (where Python would raise on the nested `original[key]`
access, reachable only through malformed positional list data) leaves the
original unchanged. -/
def mergeEntryVal : Json → Json → Json
  | ov, .obj vo =>
      (match ov with
       | .obj oo =>
           if vo.hasKey "value" && oo.hasKey "value" then
             (if replaceCond oo vo then .obj vo else .obj oo)
           else .obj (mergeObj oo vo)
       | _ => ov)
  | ov, .arr vxs =>
      (match ov with
       | .arr oxs => .arr (mergeList oxs vxs)
       | _ => ov)
  | ov, _ => ov

/-- Positional list merge (`extraction_service.py:355-357`): dict items are
merged into the original item at the same index; extra patch items are
ignored; extra original items are kept. -/
def mergeList : JsonList → JsonList → JsonList
  | .nil, _ => .nil
  | oxs, .nil => oxs
  | .cons o os, .cons v vs =>
      .cons
        (match v with
         | .obj vo => (match o with | .obj oo => .obj (mergeObj oo vo) | _ => o)
         | _ => o)
        (mergeList os vs)

end

/-- One step of the merge loop, named for the proofs. -/
def mergeStep (okvs : JsonObj) (k : String) (v : Json) : JsonObj :=
  match okvs.get? k with
  | none => okvs
  | some ov => okvs.set k (mergeEntryVal ov v)

theorem mergeObj_cons (okvs : JsonObj) (k : String) (v : Json) (tl : JsonObj) :
    mergeObj okvs (.cons k v tl) = mergeObj (mergeStep okvs k v) tl := rfl

/-- Confidence of a field on the claim's ordering `high > medium > low`,
with an absent, null or invalid confidence ranked below `low`. -/
def confRank (f : JsonObj) : Nat := confOrder (f.pyGet "confidence")

mutual

/-- C1's property of a merged record against its original: wherever either
tree has a dict node with a `value` key, both must have it, the confidence
rank must not have decreased, and a present value must have stayed present;
all other structure must be unchanged shape-wise, compared pointwise. -/
def noDowngrade : Json → Json → Bool
  | .obj a, .obj b =>
      if a.hasKey "value" || b.hasKey "value" then
        a.hasKey "value" && b.hasKey "value" &&
        decide (confRank a ≤ confRank b) &&
        (!valuePresent a || valuePresent b)
      else noDowngradeObj a b
  | .arr a, .arr b => noDowngradeList a b
  | x, y => x == y

def noDowngradeObj : JsonObj → JsonObj → Bool
  | .nil, .nil => true
  | .cons ka va ta, .cons kb vb tb =>
      ka == kb && noDowngrade va vb && noDowngradeObj ta tb
  | _, _ => false

def noDowngradeList : JsonList → JsonList → Bool
  | .nil, .nil => true
  | .cons a ta, .cons b tb => noDowngrade a b && noDowngradeList ta tb
  | _, _ => false

end

/-- The spec §3 Field invariant at one field dict: a present value carries
one of the three valid confidence labels, a null value carries none. -/
def fieldInvariant (o : JsonObj) : Bool :=
  if valuePresent o then validConfidence (o.pyGet "confidence")
  else o.pyGet "confidence" == Json.null

mutual

/-- The spec §3 Field invariant at every dict node with a `value` key,
anywhere in the tree. -/
def invariantAll : Json → Bool
  | .obj o => (!o.hasKey "value" || fieldInvariant o) && invariantAllObj o
  | .arr xs => invariantAllList xs
  | _ => true

def invariantAllObj : JsonObj → Bool
  | .nil => true
  | .cons _ v tl => invariantAll v && invariantAllObj tl

def invariantAllList : JsonList → Bool
  | .nil => true
  | .cons hd tl => invariantAll hd && invariantAllList tl

end

def Json.isObjB : Json → Bool
  | .obj _ => true
  | _ => false

def Json.isArrB : Json → Bool
  | .arr _ => true
  | _ => false

/-- The shape relationship the merge maintains between an original entry
and its merged form: equal, or both dicts, or both lists. -/
def classKeep (x y : Json) : Prop :=
  x = y ∨ (x.isObjB = true ∧ y.isObjB = true) ∨
    (x.isArrB = true ∧ y.isArrB = true)

theorem classKeep_refl (x : Json) : classKeep x x := Or.inl rfl

theorem classKeep_trans {x y z : Json} (h1 : classKeep x y)
    (h2 : classKeep y z) : classKeep x z := by
  rcases h1 with rfl | h1 | h1
  · exact h2
  · rcases h2 with rfl | h2 | h2
    · exact Or.inr (Or.inl h1)
    · exact Or.inr (Or.inl ⟨h1.1, h2.2⟩)
    · cases y <;> simp_all [Json.isObjB, Json.isArrB]
  · rcases h2 with rfl | h2 | h2
    · exact Or.inr (Or.inr h1)
    · cases y <;> simp_all [Json.isObjB, Json.isArrB]
    · exact Or.inr (Or.inr ⟨h1.1, h2.2⟩)

theorem classKeep_confOrder {x y : Json} (h : classKeep x y) :
    confOrder x = confOrder y := by
  rcases h with rfl | h | h
  · rfl
  · cases x <;> cases y <;> simp_all [Json.isObjB, confOrder]
  · cases x <;> cases y <;> simp_all [Json.isArrB, confOrder]

theorem classKeep_nullEq {x y : Json} (h : classKeep x y) :
    (x == Json.null) = (y == Json.null) := by
  rcases h with rfl | h | h
  · rfl
  · cases x <;> cases y <;> simp_all [Json.isObjB]
  · cases x <;> cases y <;> simp_all [Json.isArrB]

theorem classKeep_validConf {x y : Json} (h : classKeep x y) :
    validConfidence x = validConfidence y := by
  rcases h with rfl | h | h
  · rfl
  · cases x <;> cases y <;> simp_all [Json.isObjB, validConfidence]
  · cases x <;> cases y <;> simp_all [Json.isArrB, validConfidence]

theorem classKeep_mergeEntryVal : ∀ (ov v : Json), classKeep ov (mergeEntryVal ov v)
  | ov, .obj vo => by
      cases ov <;> simp only [mergeEntryVal]
      case obj oo =>
        split
        · split
          · exact Or.inr (Or.inl ⟨rfl, rfl⟩)
          · exact classKeep_refl _
        · exact Or.inr (Or.inl ⟨rfl, rfl⟩)
      all_goals exact classKeep_refl _
  | ov, .arr vxs => by
      cases ov <;> simp only [mergeEntryVal]
      case arr oxs => exact Or.inr (Or.inr ⟨rfl, rfl⟩)
      all_goals exact classKeep_refl _
  | ov, .null => classKeep_refl ov
  | ov, .boolean _ => classKeep_refl ov
  | ov, .num _ => classKeep_refl ov
  | ov, .str _ => classKeep_refl ov

theorem classKeep_pyGet_mergeStep (okvs : JsonObj) (k0 : String) (v : Json)
    (k : String) : classKeep (okvs.pyGet k) ((mergeStep okvs k0 v).pyGet k) := by
  unfold mergeStep
  cases hg : okvs.get? k0 with
  | none => exact classKeep_refl _
  | some ov =>
      by_cases hk : k0 = k
      · subst hk
        rw [JsonObj.pyGet_set_self]
        have hov : okvs.pyGet k0 = ov := by simp [JsonObj.pyGet, hg]
        rw [hov]
        exact classKeep_mergeEntryVal ov v
      · rw [JsonObj.pyGet_set_ne _ _ _ _ hk]
        exact classKeep_refl _

theorem classKeep_pyGet_mergeObj : ∀ (b a : JsonObj) (k : String),
    classKeep (a.pyGet k) ((mergeObj a b).pyGet k)
  | .nil, _, _ => classKeep_refl _
  | .cons k0 v tl, a, k => by
      rw [mergeObj_cons]
      exact classKeep_trans (classKeep_pyGet_mergeStep a k0 v k)
        (classKeep_pyGet_mergeObj tl (mergeStep a k0 v) k)

theorem JsonObj.hasKey_iff_get? : ∀ (o : JsonObj) (k : String),
    o.hasKey k = (o.get? k).isSome
  | .nil, _ => rfl
  | .cons k0 v tl, k => by
      simp only [JsonObj.hasKey, JsonObj.get?]
      by_cases h : k0 = k <;> simp [h, JsonObj.hasKey_iff_get? tl k]

theorem hasKey_set_existing (o : JsonObj) (k : String) (w : Json) (k' : String)
    (h : o.hasKey k = true) : (o.set k w).hasKey k' = o.hasKey k' := by
  rw [JsonObj.hasKey_set]
  by_cases hk : k = k'
  · subst hk; simp [h]
  · simp [hk]

theorem hasKey_mergeStep (okvs : JsonObj) (k0 : String) (v : Json) (k : String) :
    (mergeStep okvs k0 v).hasKey k = okvs.hasKey k := by
  unfold mergeStep
  cases hg : okvs.get? k0 with
  | none => rfl
  | some ov =>
      exact hasKey_set_existing okvs k0 _ k
        (by rw [JsonObj.hasKey_iff_get?, hg]; rfl)

theorem hasKey_mergeObj : ∀ (b a : JsonObj) (k : String),
    (mergeObj a b).hasKey k = a.hasKey k
  | .nil, _, _ => rfl
  | .cons k0 v tl, a, k => by
      rw [mergeObj_cons, hasKey_mergeObj tl _ k, hasKey_mergeStep]

theorem confRank_mergeObj (a b : JsonObj) :
    confRank (mergeObj a b) = confRank a :=
  (classKeep_confOrder (classKeep_pyGet_mergeObj b a "confidence")).symm

theorem valuePresent_mergeObj (a b : JsonObj) :
    valuePresent (mergeObj a b) = valuePresent a := by
  unfold valuePresent
  rw [bne, bne, classKeep_nullEq (classKeep_pyGet_mergeObj b a "value")]

mutual

theorem noDowngrade_refl : ∀ x : Json, noDowngrade x x = true
  | .obj a => by
      simp only [noDowngrade]
      split
      · rename_i h
        have hv : a.hasKey "value" = true := by simpa using h
        simp [hv, Nat.le_refl]
      · exact noDowngradeObj_refl a
  | .arr xs => noDowngradeList_refl xs
  | .null => rfl
  | .boolean b => by simp [noDowngrade]
  | .num q => by simp [noDowngrade]
  | .str s => by simp [noDowngrade]

theorem noDowngradeObj_refl : ∀ a : JsonObj, noDowngradeObj a a = true
  | .nil => rfl
  | .cons k v tl => by
      simp only [noDowngradeObj, Bool.and_eq_true, beq_self_eq_true]
      exact ⟨⟨trivial, noDowngrade_refl v⟩, noDowngradeObj_refl tl⟩

theorem noDowngradeList_refl : ∀ xs : JsonList, noDowngradeList xs xs = true
  | .nil => rfl
  | .cons hd tl => by
      simp only [noDowngradeList, Bool.and_eq_true]
      exact ⟨noDowngrade_refl hd, noDowngradeList_refl tl⟩

end

mutual

theorem noDowngrade_trans : ∀ a b c : Json, noDowngrade a b = true →
    noDowngrade b c = true → noDowngrade a c = true
  | .obj a, .obj b, .obj c, h1, h2 => by
      simp only [noDowngrade] at h1 h2 ⊢
      cases hKa : a.hasKey "value" <;> cases hKb : b.hasKey "value" <;>
        cases hKc : c.hasKey "value" <;>
        simp only [hKa, hKb, hKc, Bool.or_self, Bool.or_false, Bool.false_or,
          Bool.or_true, Bool.true_or, if_true, if_false, Bool.false_and,
          Bool.true_and, Bool.and_eq_true, decide_eq_true_eq,
          Bool.false_eq_true, Bool.not_false, Bool.not_true, Bool.true_or,
          Bool.or_true, Bool.true_eq_false, and_true, true_and,
          false_and, and_false] at h1 h2 ⊢
      case false.false.false => exact noDowngradeObj_trans a b c h1 h2
      case true.true.true =>
        obtain ⟨⟨hR1, hP1⟩⟩ := And.intro h1 h2
        obtain ⟨hR2, hP2⟩ := h2
        refine ⟨Nat.le_trans hR1 hR2, ?_⟩
        cases hpa : valuePresent a <;> simp_all
  | .arr a, .arr b, .arr c, h1, h2 => by
      simp only [noDowngrade] at h1 h2 ⊢
      exact noDowngradeList_trans a b c h1 h2
  | .obj a, .obj b, .null, _, h2 => by simp [noDowngrade] at h2
  | .obj a, .obj b, .boolean _, _, h2 => by simp [noDowngrade] at h2
  | .obj a, .obj b, .num _, _, h2 => by simp [noDowngrade] at h2
  | .obj a, .obj b, .str _, _, h2 => by simp [noDowngrade] at h2
  | .obj a, .obj b, .arr _, _, h2 => by simp [noDowngrade] at h2
  | .obj a, .null, _, h1, _ => by simp [noDowngrade] at h1
  | .obj a, .boolean _, _, h1, _ => by simp [noDowngrade] at h1
  | .obj a, .num _, _, h1, _ => by simp [noDowngrade] at h1
  | .obj a, .str _, _, h1, _ => by simp [noDowngrade] at h1
  | .obj a, .arr _, _, h1, _ => by simp [noDowngrade] at h1
  | .arr a, .arr b, .null, _, h2 => by simp [noDowngrade] at h2
  | .arr a, .arr b, .boolean _, _, h2 => by simp [noDowngrade] at h2
  | .arr a, .arr b, .num _, _, h2 => by simp [noDowngrade] at h2
  | .arr a, .arr b, .str _, _, h2 => by simp [noDowngrade] at h2
  | .arr a, .arr b, .obj _, _, h2 => by simp [noDowngrade] at h2
  | .arr a, .null, _, h1, _ => by simp [noDowngrade] at h1
  | .arr a, .boolean _, _, h1, _ => by simp [noDowngrade] at h1
  | .arr a, .num _, _, h1, _ => by simp [noDowngrade] at h1
  | .arr a, .str _, _, h1, _ => by simp [noDowngrade] at h1
  | .arr a, .obj _, _, h1, _ => by simp [noDowngrade] at h1
  | .null, b, c, h1, h2 => by cases b <;> simp_all [noDowngrade]
  | .boolean _, b, c, h1, h2 => by cases b <;> simp_all [noDowngrade]
  | .num _, b, c, h1, h2 => by cases b <;> simp_all [noDowngrade]
  | .str _, b, c, h1, h2 => by cases b <;> simp_all [noDowngrade]

theorem noDowngradeObj_trans : ∀ a b c : JsonObj, noDowngradeObj a b = true →
    noDowngradeObj b c = true → noDowngradeObj a c = true
  | .nil, .nil, .nil, _, _ => rfl
  | .cons ka va ta, .cons kb vb tb, .cons kc vc tc, h1, h2 => by
      simp only [noDowngradeObj, Bool.and_eq_true, beq_iff_eq] at h1 h2 ⊢
      obtain ⟨⟨hk1, hv1⟩, ht1⟩ := h1
      obtain ⟨⟨hk2, hv2⟩, ht2⟩ := h2
      exact ⟨⟨hk1.trans hk2, noDowngrade_trans va vb vc hv1 hv2⟩,
        noDowngradeObj_trans ta tb tc ht1 ht2⟩
  | .nil, .cons _ _ _, _, h1, _ => by simp [noDowngradeObj] at h1
  | .cons _ _ _, .nil, _, h1, _ => by simp [noDowngradeObj] at h1
  | .nil, .nil, .cons _ _ _, _, h2 => by simp [noDowngradeObj] at h2
  | .cons _ _ _, .cons _ _ _, .nil, _, h2 => by simp [noDowngradeObj] at h2

theorem noDowngradeList_trans : ∀ a b c : JsonList, noDowngradeList a b = true →
    noDowngradeList b c = true → noDowngradeList a c = true
  | .nil, .nil, .nil, _, _ => rfl
  | .cons va ta, .cons vb tb, .cons vc tc, h1, h2 => by
      simp only [noDowngradeList, Bool.and_eq_true] at h1 h2 ⊢
      exact ⟨noDowngrade_trans va vb vc h1.1 h2.1,
        noDowngradeList_trans ta tb tc h1.2 h2.2⟩
  | .nil, .cons _ _, _, h1, _ => by simp [noDowngradeList] at h1
  | .cons _ _, .nil, _, h1, _ => by simp [noDowngradeList] at h1
  | .nil, .nil, .cons _ _, _, h2 => by simp [noDowngradeList] at h2
  | .cons _ _, .cons _ _, .nil, _, h2 => by simp [noDowngradeList] at h2

end

theorem invariantAllObj_get? : ∀ (o : JsonObj) (k : String) (v : Json),
    invariantAllObj o = true → o.get? k = some v → invariantAll v = true
  | .nil, _, _, _, hg => by cases hg
  | .cons k0 v0 tl, k, v, h, hg => by
      simp only [invariantAllObj, Bool.and_eq_true] at h
      simp only [JsonObj.get?] at hg
      split at hg
      · injection hg with h'
        subst h'
        exact h.1
      · exact invariantAllObj_get? tl k v h.2 hg

theorem invariantAllObj_set : ∀ (o : JsonObj) (k : String) (w : Json),
    invariantAllObj o = true → invariantAll w = true →
    invariantAllObj (o.set k w) = true
  | .nil, k, w, _, hw => by simp [JsonObj.set, invariantAllObj, hw]
  | .cons k0 v0 tl, k, w, h, hw => by
      simp only [invariantAllObj, Bool.and_eq_true] at h
      simp only [JsonObj.set]
      split
      · simp only [invariantAllObj, Bool.and_eq_true]
        exact ⟨hw, h.2⟩
      · simp only [invariantAllObj, Bool.and_eq_true]
        exact ⟨h.1, invariantAllObj_set tl k w h.2 hw⟩

theorem fieldInvariant_mergeObj (a b : JsonObj) :
    fieldInvariant (mergeObj a b) = fieldInvariant a := by
  unfold fieldInvariant
  rw [valuePresent_mergeObj,
    ← classKeep_validConf (classKeep_pyGet_mergeObj b a "confidence"),
    ← classKeep_nullEq (classKeep_pyGet_mergeObj b a "confidence")]

mutual

theorem invariantAll_mergeObj : ∀ (b a : JsonObj),
    invariantAllObj a = true → invariantAllObj b = true →
    invariantAllObj (mergeObj a b) = true
  | .nil, _, ha, _ => ha
  | .cons k v tl, a, ha, hb => by
      rw [mergeObj_cons]
      simp only [invariantAllObj, Bool.and_eq_true] at hb
      have hstep : invariantAllObj (mergeStep a k v) = true := by
        unfold mergeStep
        cases hg : a.get? k with
        | none => exact ha
        | some ov =>
            exact invariantAllObj_set a k _ ha
              (invariantAll_mergeEntryVal ov v
                (invariantAllObj_get? a k ov ha hg) hb.1)
      exact invariantAll_mergeObj tl _ hstep hb.2
termination_by b a ha hb => sizeOf b

theorem invariantAll_mergeEntryVal : ∀ (ov v : Json),
    invariantAll ov = true → invariantAll v = true →
    invariantAll (mergeEntryVal ov v) = true
  | ov, .obj vo, ho, hv => by
      cases ov <;> simp only [mergeEntryVal]
      case obj oo =>
        split
        · split
          · exact hv
          · exact ho
        · simp only [invariantAll, Bool.and_eq_true] at ho hv ⊢
          refine ⟨?_, invariantAll_mergeObj vo oo ho.2 hv.2⟩
          rw [hasKey_mergeObj, fieldInvariant_mergeObj]
          exact ho.1
      all_goals exact ho
  | ov, .arr vxs, ho, hv => by
      cases ov <;> simp only [mergeEntryVal]
      case arr oxs =>
        simp only [invariantAll] at ho hv ⊢
        exact invariantAll_mergeList vxs oxs ho hv
      all_goals exact ho
  | ov, .null, ho, _ => ho
  | ov, .boolean _, ho, _ => ho
  | ov, .num _, ho, _ => ho
  | ov, .str _, ho, _ => ho
termination_by ov v ho hv => sizeOf v

theorem invariantAll_mergeList : ∀ (vs os : JsonList),
    invariantAllList os = true → invariantAllList vs = true →
    invariantAllList (mergeList os vs) = true
  | .nil, .nil, ho, _ => ho
  | .nil, .cons _ _, ho, _ => ho
  | .cons _ _, .nil, ho, _ => ho
  | .cons v vs, .cons o os, ho, hv => by
      simp only [invariantAllList, Bool.and_eq_true] at ho hv
      have htl : invariantAllList (mergeList os vs) = true :=
        invariantAll_mergeList vs os ho.2 hv.2
      cases v
      case obj vo =>
        cases o
        case obj oo =>
          have hd : invariantAll (Json.obj (mergeObj oo vo)) = true := by
            simp only [invariantAll, Bool.and_eq_true] at ho hv ⊢
            refine ⟨?_, invariantAll_mergeObj vo oo ho.1.2 hv.1.2⟩
            rw [hasKey_mergeObj, fieldInvariant_mergeObj]
            exact ho.1.1
          show (invariantAll (Json.obj (mergeObj oo vo)) &&
            invariantAllList (mergeList os vs)) = true
          simp only [Bool.and_eq_true]
          exact ⟨hd, htl⟩
        all_goals
          (show (invariantAll _ && invariantAllList (mergeList os vs)) = true
           simp only [Bool.and_eq_true]
           exact ⟨ho.1, htl⟩)
      all_goals
        (show (invariantAll o && invariantAllList (mergeList os vs)) = true
         simp only [Bool.and_eq_true]
         exact ⟨ho.1, htl⟩)
termination_by vs os ho hv => sizeOf vs

end

theorem invariantAllObj_mergeStep (a : JsonObj) (k : String) (v : Json)
    (ha : invariantAllObj a = true) (hv : invariantAll v = true) :
    invariantAllObj (mergeStep a k v) = true := by
  unfold mergeStep
  cases hg : a.get? k with
  | none => exact ha
  | some ov =>
      exact invariantAllObj_set a k _ ha
        (invariantAll_mergeEntryVal ov v (invariantAllObj_get? a k ov ha hg) hv)

theorem noDowngradeObj_set : ∀ (o : JsonObj) (k : String) (ov w : Json),
    o.get? k = some ov → noDowngrade ov w = true →
    noDowngradeObj o (o.set k w) = true
  | .nil, _, _, _, hg, _ => by cases hg
  | .cons k0 v0 tl, k, ov, w, hg, hw => by
      simp only [JsonObj.get?] at hg
      simp only [JsonObj.set]
      by_cases h : (k0 == k) = true
      · rw [if_pos h] at hg ⊢
        injection hg with h'
        subst h'
        simp only [noDowngradeObj, Bool.and_eq_true, beq_self_eq_true]
        exact ⟨⟨trivial, hw⟩, noDowngradeObj_refl tl⟩
      · rw [if_neg h] at hg ⊢
        simp only [noDowngradeObj, Bool.and_eq_true, beq_self_eq_true]
        exact ⟨⟨trivial, noDowngrade_refl v0⟩,
          noDowngradeObj_set tl k ov w hg hw⟩

theorem validConfidence_one_le (c : Json) (h : validConfidence c = true) :
    1 ≤ confOrder c := by
  cases c <;> simp [validConfidence] at h
  rcases h with (h | h) | h <;> subst h <;> simp [confOrder]

theorem pyGetD_conf_cases (o : JsonObj) :
    (o.pyGetD "confidence" (.str "low") = o.pyGet "confidence" ∧
      o.hasKey "confidence" = true) ∨
    (o.pyGetD "confidence" (.str "low") = .str "low" ∧
      o.pyGet "confidence" = .null) := by
  rw [JsonObj.hasKey_iff_get?]
  cases hg : o.get? "confidence" <;>
    simp [JsonObj.pyGet, JsonObj.pyGetD, hg]

/-- The central field-replacement case: when the merge replaces an original
field with the verification field, the confidence rank cannot drop and a
present value cannot become null, provided both fields satisfy the §3
Field invariant. -/
theorem field_replace_noDowngrade (oo vo : JsonObj)
    (ho : fieldInvariant oo = true) (hv : fieldInvariant vo = true)
    (hko : oo.hasKey "value" = true) (hkv : vo.hasKey "value" = true)
    (hrep : replaceCond oo vo = true) :
    noDowngrade (.obj oo) (.obj vo) = true := by
  simp only [noDowngrade, hko, hkv, Bool.true_or, if_true, Bool.true_and,
    Bool.and_eq_true, decide_eq_true_eq]
  unfold fieldInvariant at ho hv
  simp only [replaceCond, Bool.or_eq_true, Bool.and_eq_true,
    decide_eq_true_eq] at hrep
  by_cases hpo : valuePresent oo = true
  · -- the original value is present: only a strictly-higher-confidence
    -- patch can replace it
    rw [if_pos hpo] at ho
    have hro : 1 ≤ confRank oo := validConfidence_one_le _ ho
    rcases hrep with hlt | ⟨hnull, _⟩
    · -- strict confidence increase
      have hoD : confOrder (oo.pyGetD "confidence" (.str "low")) = confRank oo := by
        rcases pyGetD_conf_cases oo with ⟨he, _⟩ | ⟨_, hn⟩
        · rw [he]; rfl
        · unfold confRank
          rw [hn] at ho
          simp [validConfidence] at ho
      rw [hoD] at hlt
      have hvD : confRank vo = confOrder (vo.pyGetD "confidence" (.str "low")) ∧
          valuePresent vo = true := by
        by_cases hpv : valuePresent vo = true
        · rw [if_pos hpv] at hv
          refine ⟨?_, hpv⟩
          rcases pyGetD_conf_cases vo with ⟨he, _⟩ | ⟨_, hn⟩
          · rw [he]; rfl
          · rw [hn] at hv
            simp [validConfidence] at hv
        · rw [if_neg hpv] at hv
          exfalso
          rcases pyGetD_conf_cases vo with ⟨he, _⟩ | ⟨he, _⟩
          · rw [he, (by simpa using hv : vo.pyGet "confidence" = Json.null)] at hlt
            simp [confOrder] at hlt
          · rw [he] at hlt
            simp [confOrder] at hlt
            omega
      refine ⟨?_, ?_⟩
      · rw [hvD.1]; exact Nat.le_of_lt hlt
      · simp [hvD.2]
    · -- original value was null: contradicts presence
      exfalso
      unfold valuePresent at hpo
      simp only [bne, hnull, Bool.not_true] at hpo
      cases hpo
  · -- the original value is null: its confidence is null, rank 0
    rw [if_neg hpo] at ho
    refine ⟨?_, ?_⟩
    · have h0 : confRank oo = 0 := by
        unfold confRank
        rw [(by simpa using ho : oo.pyGet "confidence" = Json.null)]
        rfl
      rw [h0]
      exact Nat.zero_le _
    · have hfp : valuePresent oo = false := by
        cases h : valuePresent oo
        · rfl
        · exact absurd h hpo
      simp [hfp]

theorem fieldInvariant_of_invariantAll (o : JsonObj)
    (h : invariantAll (.obj o) = true) (hk : o.hasKey "value" = true) :
    fieldInvariant o = true := by
  simp only [invariantAll, Bool.and_eq_true, hk, Bool.not_true,
    Bool.false_or] at h
  exact h.1

theorem invariantAllObj_of_invariantAll (o : JsonObj)
    (h : invariantAll (.obj o) = true) : invariantAllObj o = true := by
  simp only [invariantAll, Bool.and_eq_true] at h
  exact h.2

theorem invariantAllList_of_invariantAll (xs : JsonList)
    (h : invariantAll (.arr xs) = true) : invariantAllList xs = true := by
  simpa [invariantAll] using h

mutual

theorem noDowngrade_mergeObj : ∀ (b a : JsonObj),
    invariantAllObj a = true → invariantAllObj b = true →
    noDowngradeObj a (mergeObj a b) = true
  | .nil, a, _, _ => noDowngradeObj_refl a
  | .cons k v tl, a, ha, hb => by
      rw [mergeObj_cons]
      simp only [invariantAllObj, Bool.and_eq_true] at hb
      have hstep : noDowngradeObj a (mergeStep a k v) = true := by
        unfold mergeStep
        cases hg : a.get? k with
        | none => exact noDowngradeObj_refl a
        | some ov =>
            exact noDowngradeObj_set a k ov _ hg
              (noDowngrade_mergeEntryVal ov v
                (invariantAllObj_get? a k ov ha hg) hb.1)
      exact noDowngradeObj_trans _ _ _ hstep
        (noDowngrade_mergeObj tl (mergeStep a k v)
          (invariantAllObj_mergeStep a k v ha hb.1) hb.2)
termination_by b a ha hb => (sizeOf b, 0)

theorem noDowngrade_mergeNode : ∀ (vo oo : JsonObj),
    invariantAll (.obj oo) = true → invariantAll (.obj vo) = true →
    noDowngrade (.obj oo) (.obj (mergeObj oo vo)) = true
  | vo, oo, ho, hv => by
      simp only [noDowngrade]
      split
      · rename_i hk
        have hkm := hasKey_mergeObj vo oo "value"
        have hko : oo.hasKey "value" = true := by
          rcases (Bool.or_eq_true _ _).mp hk with h1 | h1
          · exact h1
          · rw [hkm] at h1; exact h1
        simp [hko, hkm, confRank_mergeObj, valuePresent_mergeObj]
      · exact noDowngrade_mergeObj vo oo
          (invariantAllObj_of_invariantAll oo ho)
          (invariantAllObj_of_invariantAll vo hv)
termination_by vo oo ho hv => (1 + sizeOf vo, 1)

theorem noDowngrade_mergeEntryVal : ∀ (ov v : Json),
    invariantAll ov = true → invariantAll v = true →
    noDowngrade ov (mergeEntryVal ov v) = true
  | ov, .obj vo, ho, hv => by
      cases ov <;> simp only [mergeEntryVal]
      case obj oo =>
        split
        · rename_i hcond
          simp only [Bool.and_eq_true] at hcond
          split
          · rename_i hrep
            exact field_replace_noDowngrade oo vo
              (fieldInvariant_of_invariantAll oo ho hcond.2)
              (fieldInvariant_of_invariantAll vo hv hcond.1)
              hcond.2 hcond.1 hrep
          · exact noDowngrade_refl _
        · exact noDowngrade_mergeNode vo oo ho hv
      all_goals exact noDowngrade_refl _
  | ov, .arr vxs, ho, hv => by
      cases ov <;> simp only [mergeEntryVal]
      case arr oxs =>
        simp only [noDowngrade]
        exact noDowngrade_mergeList vxs oxs
          (invariantAllList_of_invariantAll oxs ho)
          (invariantAllList_of_invariantAll vxs hv)
      all_goals exact noDowngrade_refl _
  | ov, .null, _, _ => noDowngrade_refl ov
  | ov, .boolean _, _, _ => noDowngrade_refl ov
  | ov, .num _, _, _ => noDowngrade_refl ov
  | ov, .str _, _, _ => noDowngrade_refl ov
termination_by ov v ho hv => (sizeOf v, 2)

theorem noDowngrade_mergeList : ∀ (vs os : JsonList),
    invariantAllList os = true → invariantAllList vs = true →
    noDowngradeList os (mergeList os vs) = true
  | .nil, .nil, _, _ => rfl
  | .nil, .cons _ _, _, _ => noDowngradeList_refl _
  | .cons _ _, .nil, _, _ => rfl
  | .cons v vs', .cons o os', ho, hv => by
      simp only [invariantAllList, Bool.and_eq_true] at ho hv
      have htl := noDowngrade_mergeList vs' os' ho.2 hv.2
      cases v
      case obj vo =>
        cases o
        case obj oo =>
          show noDowngradeList (.cons (.obj oo) os')
            (.cons (.obj (mergeObj oo vo)) (mergeList os' vs')) = true
          simp only [noDowngradeList, Bool.and_eq_true]
          exact ⟨noDowngrade_mergeNode vo oo ho.1 hv.1, htl⟩
        all_goals
          (show noDowngradeList (.cons _ os') (.cons _ (mergeList os' vs')) = true
           simp only [noDowngradeList, Bool.and_eq_true]
           exact ⟨noDowngrade_refl _, htl⟩)
      all_goals
        (show noDowngradeList (.cons o os') (.cons o (mergeList os' vs')) = true
         simp only [noDowngradeList, Bool.and_eq_true]
         exact ⟨noDowngrade_refl _, htl⟩)
termination_by vs os ho hv => (sizeOf vs, 0)

end

/-- A normalized original (a fixed point of the Field Normalizer) whose
field `s.f` has a null value yet keeps its valid "high" confidence. -/
def c1OrigA : JsonObj :=
  .cons "s" (.obj (.cons "f" (.obj
    (.cons "value" .null
      (.cons "confidence" (.str "high")
        (.cons "missing_reason" (.str "unclear")
          (.cons "quotes" (.arr .nil) .nil))))) .nil)) .nil

/-- A verification patch supplying a low-confidence value for `s.f`. -/
def c1PatchA : JsonObj :=
  .cons "s" (.obj (.cons "f" (.obj
    (.cons "value" (.num 1)
      (.cons "confidence" (.str "low") .nil))) .nil)) .nil

/-- A normalized original whose field `s.f` has a present value with "low"
confidence. -/
def c1OrigB : JsonObj :=
  .cons "s" (.obj (.cons "f" (.obj
    (.cons "value" (.str "x")
      (.cons "confidence" (.str "low")
        (.cons "missing_reason" .null
          (.cons "quotes" (.arr .nil) .nil))))) .nil)) .nil

/-- A verification patch claiming "high" confidence for a null value. -/
def c1PatchB : JsonObj :=
  .cons "s" (.obj (.cons "f" (.obj
    (.cons "value" .null
      (.cons "confidence" (.str "high") .nil))) .nil)) .nil

/-- C1, as stated, is false on the code.  Both originals are fixed points
of the Field Normalizer (hence normalized records).  Pair A: the original
field `s.f` has `value: null` with retained `confidence: "high"`; the patch
supplies a value with confidence "low", so the merge's fill-the-gap rule
replaces the field and its confidence drops from high to low.  Pair B: the
original field has a present value with confidence "low"; the (unnormalized,
as merging happens before re-normalization) patch carries `value: null`
with `confidence: "high"`, so the strictly-higher-confidence rule replaces
a present value with a null one. -/
theorem c1_merge_monotone_counterexample :
    (normMeta c1OrigA = c1OrigA ∧
      noDowngrade (.obj c1OrigA) (.obj (mergeObj c1OrigA c1PatchA)) = false) ∧
    (normMeta c1OrigB = c1OrigB ∧
      noDowngrade (.obj c1OrigB) (.obj (mergeObj c1OrigB c1PatchB)) = false) :=
  ⟨⟨by decide, by decide⟩, ⟨by decide, by decide⟩⟩

/-- C1 (amended): for every original record and verification patch in which
every dict node with a `value` key satisfies the spec §3 Field invariant —
a present value carries one of the three valid confidence labels and a null
value carries no confidence (a condition the Field Normalizer does not
fully establish, see C2) — merging the patch never decreases any field's
confidence on the ordering high > medium > low (with absent/invalid
confidence ranked below low) and never replaces a present value with a
null one. -/
theorem c1_merge_monotone_amended (orig patch : JsonObj)
    (h1 : invariantAll (.obj orig) = true)
    (h2 : invariantAll (.obj patch) = true) :
    noDowngradeObj orig (mergeObj orig patch) = true :=
  noDowngrade_mergeObj patch orig (invariantAllObj_of_invariantAll orig h1)
    (invariantAllObj_of_invariantAll patch h2)

/-- Witness for C1 (amended) at a concrete invariant-satisfying pair. -/
theorem c1_merge_monotone_amended_witness :
    invariantAll (.obj c1OrigB) = true ∧ invariantAll (.obj c1PatchA) = true ∧
    noDowngradeObj c1OrigB (mergeObj c1OrigB c1PatchA) = true :=
  ⟨by decide, by decide,
    c1_merge_monotone_amended c1OrigB c1PatchA (by decide) (by decide)⟩

/-- Substring test on character lists (`kw in text` in Python). -/
def containsSub (pat : List Char) : List Char → Bool
  | [] => pat.isEmpty
  | c :: tl => pat.isPrefixOf (c :: tl) || containsSub pat tl

/-- Python `pat in hay` for strings. -/
def strContains (hay pat : String) : Bool := containsSub pat.toList hay.toList

/-- Python `s.lower()`; ASCII case mapping (the claims' inputs are ASCII;
Python's full Unicode lowering is not modelled). -/
def strLower (s : String) : String := String.mk (s.data.map Char.toLower)

/-- `rct_keywords` (`grade_service.py:148`). -/
def rctKeywords : List String := ["rct", "randomized", "randomised", "random"]

/-- The five fixed downgrade domains (`grade_service.py:156-162`). -/
def domainNames : List String :=
  ["risk_of_bias", "inconsistency", "indirectness", "imprecision",
   "publication_bias"]

/-- The three fixed upgrade factors (`grade_service.py:168`). -/
def upgradeNames : List String :=
  ["large_effect", "dose_response", "residual_confounding"]

/-- `downgrade_map.get(rating, 0)` with `downgrade_map = {"no_serious": 0,
"serious": -1, "very_serious": -2}` (`grade_service.py:155,165`); any other
value, string or not, yields 0. -/
def downgradeDelta : Json → Int
  | .str "no_serious" => 0
  | .str "serious" => -1
  | .str "very_serious" => -2
  | _ => 0

/-- Python truthiness of a parsed JSON value, as used by
`if factor.get("applicable", False):` (`grade_service.py:170`). -/
def pyTruthy : Json → Bool
  | .null => false
  | .boolean b => b
  | .num q => q != 0
  | .str s => !s.isEmpty
  | .arr .nil => false
  | .arr (.cons _ _) => true
  | .obj .nil => false
  | .obj (.cons _ _ _) => true

/-- `domain_ratings.get(domain_name, {}).get("rating", "no_serious")`
(`grade_service.py:163-164`); `none` models the `AttributeError` Python
raises when the stored domain value is not a dict. -/
def domainRatingOf (dr : JsonObj) (name : String) : Option Json :=
  match (dr.get? name).getD (.obj .nil) with
  | .obj o => some (o.pyGetD "rating" (.str "no_serious"))
  | _ => none

/-- `upgrade_factors.get(factor_name, {}).get("applicable", False)`
(`grade_service.py:169-170`); `none` models the `AttributeError` on a
non-dict factor value. -/
def upgradeApplicableOf (uf : JsonObj) (name : String) : Option Json :=
  match (uf.get? name).getD (.obj .nil) with
  | .obj o => some (o.pyGetD "applicable" (.boolean false))
  | _ => none

/-- The downgrade loop (`grade_service.py:155-165`). -/
def foldDomains (dr : JsonObj) : List String → Int → Option Int
  | [], lvl => some lvl
  | name :: rest, lvl =>
      match domainRatingOf dr name with
      | none => none
      | some r => foldDomains dr rest (lvl + downgradeDelta r)

/-- The upgrade loop (`grade_service.py:168-171`). -/
def foldUpgrades (uf : JsonObj) : List String → Int → Option Int
  | [], lvl => some lvl
  | name :: rest, lvl =>
      match upgradeApplicableOf uf name with
      | none => none
      | some a => foldUpgrades uf rest (if pyTruthy a then lvl + 1 else lvl)

/-- `level_map[certainty_level]` (`grade_service.py:176-177`); `none`
models the `KeyError` on a level outside the map. -/
def levelMap (n : Int) : Option String :=
  if n = 4 then some "high"
  else if n = 3 then some "moderate"
  else if n = 2 then some "low"
  else if n = 1 then some "very_low"
  else none

/-- `compute_overall_certainty` (`grade_service.py:141-177`); `none` models
an uncaught Python exception. -/
def computeOverallCertainty (study_design : String)
    (domain_ratings upgrade_factors : JsonObj) : Option String :=
  match foldDomains domain_ratings domainNames
    (if rctKeywords.any (fun kw => strContains (strLower study_design) kw)
     then 4 else 2) with
  | none => none
  | some lvl1 =>
      match foldUpgrades upgrade_factors upgradeNames lvl1 with
      | none => none
      | some lvl2 => levelMap (max 1 (min 4 lvl2))

/-- A qualitative downgrade judgment, for stating C4's algorithm. -/
inductive RatingLabel where
  | no_serious
  | serious
  | very_serious
deriving DecidableEq

def RatingLabel.toStr : RatingLabel → String
  | .no_serious => "no_serious"
  | .serious => "serious"
  | .very_serious => "very_serious"

/-- C4's "subtracting 0/1/2 for no_serious/serious/very_serious". -/
def RatingLabel.delta : RatingLabel → Int
  | .no_serious => 0
  | .serious => -1
  | .very_serious => -2

/-- Typed per-domain judgments; `none` is a missing domain. -/
structure SpecRatings where
  risk_of_bias : Option RatingLabel
  inconsistency : Option RatingLabel
  indirectness : Option RatingLabel
  imprecision : Option RatingLabel
  publication_bias : Option RatingLabel

/-- Typed upgrade factors; `none` is a missing factor. -/
structure SpecUpgrades where
  large_effect : Option Bool
  dose_response : Option Bool
  residual_confounding : Option Bool

/-- C4's "missing domain treated as no_serious" delta. -/
def optDelta : Option RatingLabel → Int
  | none => 0
  | some l => l.delta

/-- C4's "adding 1 per applicable upgrade factor (missing treated as not
applicable)". -/
def optUp : Option Bool → Int
  | some true => 1
  | _ => 0

/-- The certainty level computation exactly as claim C4 words it: start at
4 when the lower-cased study design contains an RCT keyword else 2,
subtract per-domain deltas, add applicable upgrades, clamp to [1,4], and
name the level. -/
def certaintySpec (design : String) (r : SpecRatings) (u : SpecUpgrades) :
    String :=
  let start : Int :=
    if rctKeywords.any (fun kw => strContains (strLower design) kw) then 4 else 2
  let lvl := start + optDelta r.risk_of_bias + optDelta r.inconsistency +
    optDelta r.indirectness + optDelta r.imprecision +
    optDelta r.publication_bias + optUp u.large_effect +
    optUp u.dose_response + optUp u.residual_confounding
  let c := max 1 (min 4 lvl)
  if c = 4 then "high"
  else if c = 3 then "moderate"
  else if c = 2 then "low"
  else "very_low"

/-- Insert `{name: {"rating": label}}` when the domain is present. -/
def maybeRatingEntry (name : String) (x : Option RatingLabel)
    (rest : JsonObj) : JsonObj :=
  match x with
  | none => rest
  | some l => .cons name (.obj (.cons "rating" (.str l.toStr) .nil)) rest

/-- The `domain_ratings` dict a typed judgment set denotes. -/
def domainsJson (r : SpecRatings) : JsonObj :=
  maybeRatingEntry "risk_of_bias" r.risk_of_bias
    (maybeRatingEntry "inconsistency" r.inconsistency
      (maybeRatingEntry "indirectness" r.indirectness
        (maybeRatingEntry "imprecision" r.imprecision
          (maybeRatingEntry "publication_bias" r.publication_bias .nil))))

/-- Insert `{name: {"applicable": b}}` when the factor is present. -/
def maybeUpEntry (name : String) (x : Option Bool) (rest : JsonObj) : JsonObj :=
  match x with
  | none => rest
  | some b => .cons name (.obj (.cons "applicable" (.boolean b) .nil)) rest

/-- The `upgrade_factors` dict a typed factor set denotes. -/
def upgradesJson (u : SpecUpgrades) : JsonObj :=
  maybeUpEntry "large_effect" u.large_effect
    (maybeUpEntry "dose_response" u.dose_response
      (maybeUpEntry "residual_confounding" u.residual_confounding .nil))

/-- The rating string a typed judgment denotes (missing → the
`.get` default `"no_serious"`). -/
def ratingStr : Option RatingLabel → String
  | none => "no_serious"
  | some l => l.toStr

theorem JsonObj.get?_nil (k : String) : (JsonObj.nil).get? k = none := rfl

theorem maybeRatingEntry_get?_ne (n : String) (x : Option RatingLabel)
    (rest : JsonObj) (n' : String) (h : (n == n') = false) :
    (maybeRatingEntry n x rest).get? n' = rest.get? n' := by
  cases x <;> simp [maybeRatingEntry, JsonObj.get?, h]

theorem maybeUpEntry_get?_ne (n : String) (x : Option Bool)
    (rest : JsonObj) (n' : String) (h : (n == n') = false) :
    (maybeUpEntry n x rest).get? n' = rest.get? n' := by
  cases x <;> simp [maybeUpEntry, JsonObj.get?, h]

theorem domainRatingOf_maybe_self (n : String) (x : Option RatingLabel)
    (rest : JsonObj) (hrest : rest.get? n = none) :
    domainRatingOf (maybeRatingEntry n x rest) n =
      some (.str (ratingStr x)) := by
  cases x <;>
    simp [maybeRatingEntry, domainRatingOf, JsonObj.get?, hrest, ratingStr,
      JsonObj.pyGetD]

theorem upgradeApplicableOf_maybe_self (n : String) (x : Option Bool)
    (rest : JsonObj) (hrest : rest.get? n = none) :
    upgradeApplicableOf (maybeUpEntry n x rest) n =
      some (match x with | none => .boolean false | some b => .boolean b) := by
  cases x <;>
    simp [maybeUpEntry, upgradeApplicableOf, JsonObj.get?, hrest,
      JsonObj.pyGetD]

theorem domainRatingOf_skip (n : String) (x : Option RatingLabel)
    (rest : JsonObj) (n' : String) (h : (n == n') = false) :
    domainRatingOf (maybeRatingEntry n x rest) n' = domainRatingOf rest n' := by
  unfold domainRatingOf
  rw [maybeRatingEntry_get?_ne n x rest n' h]

theorem upgradeApplicableOf_skip (n : String) (x : Option Bool)
    (rest : JsonObj) (n' : String) (h : (n == n') = false) :
    upgradeApplicableOf (maybeUpEntry n x rest) n' =
      upgradeApplicableOf rest n' := by
  unfold upgradeApplicableOf
  rw [maybeUpEntry_get?_ne n x rest n' h]

theorem maybeRatingEntry_get?_none (n : String) (x : Option RatingLabel)
    (rest : JsonObj) (n' : String) (h : (n == n') = false)
    (hrest : rest.get? n' = none) :
    (maybeRatingEntry n x rest).get? n' = none := by
  rw [maybeRatingEntry_get?_ne n x rest n' h, hrest]

theorem maybeUpEntry_get?_none (n : String) (x : Option Bool)
    (rest : JsonObj) (n' : String) (h : (n == n') = false)
    (hrest : rest.get? n' = none) :
    (maybeUpEntry n x rest).get? n' = none := by
  rw [maybeUpEntry_get?_ne n x rest n' h, hrest]

/-- The five domain lookups on a typed-judgment dict. -/
theorem domainRatingOf_domainsJson (r : SpecRatings) :
    domainRatingOf (domainsJson r) "risk_of_bias" =
      some (.str (ratingStr r.risk_of_bias)) ∧
    domainRatingOf (domainsJson r) "inconsistency" =
      some (.str (ratingStr r.inconsistency)) ∧
    domainRatingOf (domainsJson r) "indirectness" =
      some (.str (ratingStr r.indirectness)) ∧
    domainRatingOf (domainsJson r) "imprecision" =
      some (.str (ratingStr r.imprecision)) ∧
    domainRatingOf (domainsJson r) "publication_bias" =
      some (.str (ratingStr r.publication_bias)) := by
  unfold domainsJson
  refine ⟨?_, ?_, ?_, ?_, ?_⟩
  · exact domainRatingOf_maybe_self _ _ _
      (maybeRatingEntry_get?_none _ _ _ _ (by decide)
        (maybeRatingEntry_get?_none _ _ _ _ (by decide)
          (maybeRatingEntry_get?_none _ _ _ _ (by decide)
            (maybeRatingEntry_get?_none _ _ _ _ (by decide) rfl))))
  · rw [domainRatingOf_skip _ _ _ _ (by decide)]
    exact domainRatingOf_maybe_self _ _ _
      (maybeRatingEntry_get?_none _ _ _ _ (by decide)
        (maybeRatingEntry_get?_none _ _ _ _ (by decide)
          (maybeRatingEntry_get?_none _ _ _ _ (by decide) rfl)))
  · rw [domainRatingOf_skip _ _ _ _ (by decide),
      domainRatingOf_skip _ _ _ _ (by decide)]
    exact domainRatingOf_maybe_self _ _ _
      (maybeRatingEntry_get?_none _ _ _ _ (by decide)
        (maybeRatingEntry_get?_none _ _ _ _ (by decide) rfl))
  · rw [domainRatingOf_skip _ _ _ _ (by decide),
      domainRatingOf_skip _ _ _ _ (by decide),
      domainRatingOf_skip _ _ _ _ (by decide)]
    exact domainRatingOf_maybe_self _ _ _
      (maybeRatingEntry_get?_none _ _ _ _ (by decide) rfl)
  · rw [domainRatingOf_skip _ _ _ _ (by decide),
      domainRatingOf_skip _ _ _ _ (by decide),
      domainRatingOf_skip _ _ _ _ (by decide),
      domainRatingOf_skip _ _ _ _ (by decide)]
    exact domainRatingOf_maybe_self _ _ _ rfl

/-- The three factor lookups on a typed-factor dict. -/
theorem upgradeApplicableOf_upgradesJson (u : SpecUpgrades) :
    upgradeApplicableOf (upgradesJson u) "large_effect" =
      some (.boolean (u.large_effect.getD false)) ∧
    upgradeApplicableOf (upgradesJson u) "dose_response" =
      some (.boolean (u.dose_response.getD false)) ∧
    upgradeApplicableOf (upgradesJson u) "residual_confounding" =
      some (.boolean (u.residual_confounding.getD false)) := by
  unfold upgradesJson
  refine ⟨?_, ?_, ?_⟩
  · rw [upgradeApplicableOf_maybe_self _ _ _
      (maybeUpEntry_get?_none _ _ _ _ (by decide)
        (maybeUpEntry_get?_none _ _ _ _ (by decide) (JsonObj.get?_nil _)))]
    cases u.large_effect <;> rfl
  · rw [upgradeApplicableOf_skip _ _ _ _ (by decide),
      upgradeApplicableOf_maybe_self _ _ _
        (maybeUpEntry_get?_none _ _ _ _ (by decide) (JsonObj.get?_nil _))]
    cases u.dose_response <;> rfl
  · rw [upgradeApplicableOf_skip _ _ _ _ (by decide),
      upgradeApplicableOf_skip _ _ _ _ (by decide),
      upgradeApplicableOf_maybe_self _ _ _ (JsonObj.get?_nil _)]
    cases u.residual_confounding <;> rfl

theorem downgradeDelta_ratingStr (x : Option RatingLabel) :
    downgradeDelta (.str (ratingStr x)) = optDelta x := by
  cases x with
  | none => rfl
  | some l => cases l <;> rfl

theorem pyTruthy_getD (x : Option Bool) :
    pyTruthy (.boolean (x.getD false)) = (x.getD false) := rfl

theorem levelMap_clamp (n : Int) :
    levelMap (max 1 (min 4 n)) =
      some (if max 1 (min 4 n) = 4 then "high"
        else if max 1 (min 4 n) = 3 then "moderate"
        else if max 1 (min 4 n) = 2 then "low"
        else "very_low") := by
  have h : max 1 (min 4 n) = 1 ∨ max 1 (min 4 n) = 2 ∨
      max 1 (min 4 n) = 3 ∨ max 1 (min 4 n) = 4 := by omega
  rcases h with h | h | h | h <;> rw [h] <;> rfl

theorem ite_getD_optUp (x : Option Bool) (lvl : Int) :
    (if (x.getD false) = true then lvl + 1 else lvl) = lvl + optUp x := by
  cases x with
  | none => simp [optUp]
  | some b => cases b <;> simp [optUp]

/-- C4: for every study-design string and every well-formed domain-rating /
upgrade-factor map (each of the five domains absent or a dict with a valid
rating, each of the three factors absent or a dict with a boolean
`applicable`, here ranged over by their typed denotations), the Certainty
Calculator returns exactly the level of the claim's algorithm: start at 4
iff the lower-cased design contains an RCT keyword else 2, subtract 0/1/2
per domain (missing → no_serious), add 1 per applicable factor (missing →
not applicable), clamp to [1,4], and name the level; in particular the two
concrete instances evaluate to "high" and "very_low". -/
theorem c4_certainty_algorithm :
    (∀ (design : String) (r : SpecRatings) (u : SpecUpgrades),
      computeOverallCertainty design (domainsJson r) (upgradesJson u) =
        some (certaintySpec design r u)) ∧
    computeOverallCertainty "Randomized controlled trial"
      (domainsJson ⟨some .no_serious, some .no_serious, some .no_serious,
        some .no_serious, some .no_serious⟩)
      (upgradesJson ⟨some false, some false, some false⟩) = some "high" ∧
    computeOverallCertainty "cohort study"
      (domainsJson ⟨some .serious, none, none, some .serious, none⟩)
      (upgradesJson ⟨some false, some false, some false⟩) = some "very_low" := by
  refine ⟨?_, by decide, by decide⟩
  intro design r u
  obtain ⟨h1, h2, h3, h4, h5⟩ := domainRatingOf_domainsJson r
  obtain ⟨g1, g2, g3⟩ := upgradeApplicableOf_upgradesJson u
  simp only [computeOverallCertainty, domainNames, foldDomains, h1, h2, h3,
    h4, h5, downgradeDelta_ratingStr, upgradeNames, foldUpgrades, g1, g2, g3,
    pyTruthy_getD, ite_getD_optUp, levelMap_clamp, certaintySpec]

/-- Whether `d.get(name, {})` yields a dict (so the nested `.get` cannot
raise). -/
def objValuedAt (d : JsonObj) (name : String) : Bool :=
  match (d.get? name).getD (.obj .nil) with
  | .obj _ => true
  | _ => false

/-- The shape under which `compute_overall_certainty` cannot raise: every
recognized domain/factor name is absent or dict-valued. -/
def wellShapedGrade (dr uf : JsonObj) : Bool :=
  domainNames.all (objValuedAt dr) && upgradeNames.all (objValuedAt uf)

theorem domainRatingOf_isSome (d : JsonObj) (n : String)
    (h : objValuedAt d n = true) : ∃ j, domainRatingOf d n = some j := by
  unfold objValuedAt at h
  unfold domainRatingOf
  cases hm : (d.get? n).getD (.obj .nil) <;> simp_all

theorem upgradeApplicableOf_isSome (d : JsonObj) (n : String)
    (h : objValuedAt d n = true) : ∃ j, upgradeApplicableOf d n = some j := by
  unfold objValuedAt at h
  unfold upgradeApplicableOf
  cases hm : (d.get? n).getD (.obj .nil) <;> simp_all

theorem foldDomains_isSome (d : JsonObj) : ∀ (names : List String) (lvl : Int),
    (∀ n ∈ names, objValuedAt d n = true) →
    ∃ m, foldDomains d names lvl = some m
  | [], lvl, _ => ⟨lvl, rfl⟩
  | n :: rest, lvl, h => by
      obtain ⟨j, hj⟩ := domainRatingOf_isSome d n (h n (by simp))
      simp only [foldDomains, hj]
      exact foldDomains_isSome d rest _ (fun m hm => h m (by simp [hm]))

theorem foldUpgrades_isSome (d : JsonObj) : ∀ (names : List String) (lvl : Int),
    (∀ n ∈ names, objValuedAt d n = true) →
    ∃ m, foldUpgrades d names lvl = some m
  | [], lvl, _ => ⟨lvl, rfl⟩
  | n :: rest, lvl, h => by
      obtain ⟨j, hj⟩ := upgradeApplicableOf_isSome d n (h n (by simp))
      simp only [foldUpgrades, hj]
      exact foldUpgrades_isSome d rest _ (fun m hm => h m (by simp [hm]))

theorem foldDomains_congr (d1 d2 : JsonObj) : ∀ (names : List String) (lvl : Int),
    (∀ n ∈ names, (domainRatingOf d1 n).map downgradeDelta =
      (domainRatingOf d2 n).map downgradeDelta) →
    foldDomains d1 names lvl = foldDomains d2 names lvl
  | [], _, _ => rfl
  | n :: rest, lvl, h => by
      have hn := h n (by simp)
      have hrest : ∀ m ∈ rest, (domainRatingOf d1 m).map downgradeDelta =
          (domainRatingOf d2 m).map downgradeDelta :=
        fun m hm => h m (by simp [hm])
      cases h1 : domainRatingOf d1 n with
      | none =>
          cases h2 : domainRatingOf d2 n with
          | none => simp only [foldDomains, h1, h2]
          | some r2 => rw [h1, h2] at hn; simp at hn
      | some r1 =>
          cases h2 : domainRatingOf d2 n with
          | none => rw [h1, h2] at hn; simp at hn
          | some r2 =>
              rw [h1, h2] at hn
              have hd : downgradeDelta r1 = downgradeDelta r2 := by
                simpa using hn
              simp only [foldDomains, h1, h2, hd]
              exact foldDomains_congr d1 d2 rest _ hrest

theorem foldUpgrades_congr (d1 d2 : JsonObj) : ∀ (names : List String) (lvl : Int),
    (∀ n ∈ names, (upgradeApplicableOf d1 n).map pyTruthy =
      (upgradeApplicableOf d2 n).map pyTruthy) →
    foldUpgrades d1 names lvl = foldUpgrades d2 names lvl
  | [], _, _ => rfl
  | n :: rest, lvl, h => by
      have hn := h n (by simp)
      have hrest : ∀ m ∈ rest, (upgradeApplicableOf d1 m).map pyTruthy =
          (upgradeApplicableOf d2 m).map pyTruthy :=
        fun m hm => h m (by simp [hm])
      cases h1 : upgradeApplicableOf d1 n with
      | none =>
          cases h2 : upgradeApplicableOf d2 n with
          | none => simp only [foldUpgrades, h1, h2]
          | some a2 => rw [h1, h2] at hn; simp at hn
      | some a1 =>
          cases h2 : upgradeApplicableOf d2 n with
          | none => rw [h1, h2] at hn; simp at hn
          | some a2 =>
              rw [h1, h2] at hn
              have hd : pyTruthy a1 = pyTruthy a2 := by simpa using hn
              simp only [foldUpgrades, h1, h2, hd]
              exact foldUpgrades_congr d1 d2 rest _ hrest

/-- `{name: {"rating": r}}`-style entry value. -/
def ratingObj (r : Json) : Json := .obj (.cons "rating" r .nil)

/-- `{name: {"applicable": a}}`-style entry value. -/
def applicableObj (a : Json) : Json := .obj (.cons "applicable" a .nil)

theorem domainRatingOf_set_self (dr : JsonObj) (name : String) (r : Json) :
    domainRatingOf (dr.set name (ratingObj r)) name = some r := by
  unfold domainRatingOf ratingObj
  rw [JsonObj.get?_set_self]
  simp [JsonObj.pyGetD, JsonObj.get?]

theorem domainRatingOf_set_ne (dr : JsonObj) (name : String) (r : Json)
    (n' : String) (h : name ≠ n') :
    domainRatingOf (dr.set name (ratingObj r)) n' = domainRatingOf dr n' := by
  unfold domainRatingOf
  rw [JsonObj.get?_set_ne _ _ _ _ h]

theorem upgradeApplicableOf_set_self (uf : JsonObj) (name : String) (a : Json) :
    upgradeApplicableOf (uf.set name (applicableObj a)) name = some a := by
  unfold upgradeApplicableOf applicableObj
  rw [JsonObj.get?_set_self]
  simp [JsonObj.pyGetD, JsonObj.get?]

theorem upgradeApplicableOf_set_ne (uf : JsonObj) (name : String) (a : Json)
    (n' : String) (h : name ≠ n') :
    upgradeApplicableOf (uf.set name (applicableObj a)) n' =
      upgradeApplicableOf uf n' := by
  unfold upgradeApplicableOf
  rw [JsonObj.get?_set_ne _ _ _ _ h]

theorem downgradeDelta_invalid (r : Json)
    (h : (r == Json.str "serious" || r == Json.str "very_serious") = false) :
    downgradeDelta r = 0 := by
  unfold downgradeDelta
  split <;> simp_all

/-- C9, as stated, is false on the code.  First, the function is not total
over arbitrary dict inputs: a domain entry whose value is the bare string
"serious" (not a dict) makes `domain_ratings.get(name, {}).get(...)` raise
`AttributeError` (modelled as `none`).  Second, `applicable` is tested with
Python truthiness, so the non-`True` (indeed false-meaning) string "no"
still contributes an upgrade: with it the result is "moderate" where the
factor-free result is "low". -/
theorem c9_certainty_safety_counterexample :
    computeOverallCertainty "x"
      (.cons "risk_of_bias" (.str "serious") .nil) .nil = none ∧
    computeOverallCertainty "cohort study" .nil .nil = some "low" ∧
    computeOverallCertainty "cohort study" .nil
      (.cons "large_effect" (.obj (.cons "applicable" (.str "no") .nil)) .nil) =
      some "moderate" :=
  ⟨by decide, by decide, by decide⟩

/-- C9 (amended): on inputs whose five recognized domain entries and three
recognized factor entries are each absent or dict-valued, the Certainty
Calculator is total and returns one of the four labels; a domain rating
that is not "serious"/"very_serious" (whether an invalid string, a
non-string, or missing) contributes a downgrade of 0 — replacing it by
"no_serious" does not change the result; and an upgrade factor whose
`applicable` is not Python-truthy contributes no upgrade — replacing it by
`False` does not change the result. -/
theorem c9_certainty_safety_amended (design : String) (dr uf : JsonObj)
    (nameD nameU : String) (r a : Json)
    (h : wellShapedGrade dr uf = true)
    (hr : (r == Json.str "serious" || r == Json.str "very_serious") = false)
    (ha : pyTruthy a = false) :
    (∃ l, computeOverallCertainty design dr uf = some l ∧
      (l = "high" ∨ l = "moderate" ∨ l = "low" ∨ l = "very_low")) ∧
    computeOverallCertainty design (dr.set nameD (ratingObj r)) uf =
      computeOverallCertainty design
        (dr.set nameD (ratingObj (.str "no_serious"))) uf ∧
    computeOverallCertainty design dr (uf.set nameU (applicableObj a)) =
      computeOverallCertainty design dr
        (uf.set nameU (applicableObj (.boolean false))) := by
  refine ⟨?_, ?_, ?_⟩
  · simp only [wellShapedGrade, Bool.and_eq_true, List.all_eq_true] at h
    obtain ⟨m1, hm1⟩ := foldDomains_isSome dr domainNames _
      (fun n hn => h.1 n hn)
    obtain ⟨m2, hm2⟩ := foldUpgrades_isSome uf upgradeNames m1
      (fun n hn => h.2 n hn)
    unfold computeOverallCertainty
    rw [hm1]
    dsimp only
    rw [hm2]
    dsimp only
    have hcl : max 1 (min 4 m2) = 1 ∨ max 1 (min 4 m2) = 2 ∨
        max 1 (min 4 m2) = 3 ∨ max 1 (min 4 m2) = 4 := by omega
    rcases hcl with hc | hc | hc | hc <;> rw [hc] <;>
      exact ⟨_, rfl, by simp⟩
  · unfold computeOverallCertainty
    rw [foldDomains_congr (dr.set nameD (ratingObj r))
      (dr.set nameD (ratingObj (.str "no_serious"))) domainNames _ ?_]
    intro n hn
    by_cases hne : nameD = n
    · subst hne
      rw [domainRatingOf_set_self, domainRatingOf_set_self]
      simp only [Option.map, downgradeDelta_invalid r hr]
      rfl
    · rw [domainRatingOf_set_ne _ _ _ _ hne, domainRatingOf_set_ne _ _ _ _ hne]
  · unfold computeOverallCertainty
    have hfu : ∀ lvl, foldUpgrades (uf.set nameU (applicableObj a))
        upgradeNames lvl =
        foldUpgrades (uf.set nameU (applicableObj (.boolean false)))
          upgradeNames lvl := by
      intro lvl
      apply foldUpgrades_congr
      intro n hn
      by_cases hne : nameU = n
      · subst hne
        rw [upgradeApplicableOf_set_self, upgradeApplicableOf_set_self]
        simp only [Option.map, ha]
        rfl
      · rw [upgradeApplicableOf_set_ne _ _ _ _ hne,
          upgradeApplicableOf_set_ne _ _ _ _ hne]
    cases foldDomains dr domainNames
      (if rctKeywords.any (fun kw => strContains (strLower design) kw)
       then 4 else 2) with
    | none => rfl
    | some lvl1 =>
        dsimp only
        rw [hfu lvl1]

/-- Witness for C9 (amended) at concrete inputs. -/
theorem c9_certainty_safety_amended_witness :
    wellShapedGrade (.cons "risk_of_bias"
      (.obj (.cons "rating" (.str "serious") .nil)) .nil) .nil = true ∧
    (Json.str "bogus" == Json.str "serious" ||
      Json.str "bogus" == Json.str "very_serious") = false ∧
    pyTruthy Json.null = false ∧
    ((∃ l, computeOverallCertainty "x"
        (.cons "risk_of_bias" (.obj (.cons "rating" (.str "serious") .nil)) .nil)
        .nil = some l ∧
      (l = "high" ∨ l = "moderate" ∨ l = "low" ∨ l = "very_low")) ∧
    computeOverallCertainty "x"
      ((JsonObj.cons "risk_of_bias"
        (.obj (.cons "rating" (.str "serious") .nil)) .nil).set
          "inconsistency" (ratingObj (.str "bogus"))) .nil =
      computeOverallCertainty "x"
        ((JsonObj.cons "risk_of_bias"
          (.obj (.cons "rating" (.str "serious") .nil)) .nil).set
            "inconsistency" (ratingObj (.str "no_serious"))) .nil ∧
    computeOverallCertainty "x"
      (.cons "risk_of_bias" (.obj (.cons "rating" (.str "serious") .nil)) .nil)
      ((JsonObj.nil).set "large_effect" (applicableObj Json.null)) =
      computeOverallCertainty "x"
        (.cons "risk_of_bias" (.obj (.cons "rating" (.str "serious") .nil)) .nil)
        ((JsonObj.nil).set "large_effect" (applicableObj (.boolean false)))) :=
  ⟨by decide, by decide, by decide,
    c9_certainty_safety_amended "x"
      (.cons "risk_of_bias" (.obj (.cons "rating" (.str "serious") .nil)) .nil)
      .nil "inconsistency" "large_effect" (.str "bogus") .null
      (by decide) (by decide) (by decide)⟩

/-- The second-pass decision of `run_extraction`
(`extraction_service.py:100-103`): `(low_conf + missing) / max(total, 1) >
0.2`, Python float division embedded as exact rational arithmetic. -/
def needsVerify (g : GlobalStats) : Bool :=
  decide ((((g.low_confidence : Rat) + (g.missing : Rat)) /
    ((max g.total_fields 1 : Nat) : Rat)) > 1 / 5)

def digitChar (d : Nat) : Char := Char.ofNat (48 + d)

/-- Decimal digits of `n`, most significant first; the fuel argument (any
value above `n`) makes the `n / 10` recursion structural. -/
def natDigitsAux : Nat → Nat → List Char
  | 0, _ => []
  | fuel + 1, n =>
      if n < 10 then [digitChar n]
      else natDigitsAux fuel (n / 10) ++ [digitChar (n % 10)]

/-- Python `str(i)` for a natural index. -/
def natRepr (n : Nat) : String := String.mk (natDigitsAux (n + 1) n)

mutual

/-- `_collect_fields_needing_verification`
(`extraction_service.py:311-330`): paths of every field whose confidence is
"low" or whose missing_reason is "unclear". -/
def collectFields : JsonObj → String → List String
  | .nil, _ => []
  | .cons k v tl, pre =>
      collectEntry v (if pre == "" then k else pre ++ "." ++ k) ++
        collectFields tl pre

def collectEntry (v : Json) (path : String) : List String :=
  match v with
  | .obj o =>
      if o.hasKey "value" then
        if o.pyGet "confidence" == .str "low" ||
           o.pyGet "missing_reason" == .str "unclear"
        then [path] else []
      else collectFields o path
  | .arr xs => collectList xs path 0
  | _ => []

def collectList : JsonList → String → Nat → List String
  | .nil, _, _ => []
  | .cons hd tl, path, i =>
      (match hd with
       | .obj o => collectFields o (path ++ "[" ++ natRepr i ++ "]")
       | _ => []) ++ collectList tl path (i + 1)

end

/-- Whether `run_extraction` actually issues the second oracle pass
(`extraction_service.py:103,108-110`): the threshold decision *and* a
nonempty list of fields to verify. -/
def triggersVerification (d : JsonObj) : Bool :=
  needsVerify (computeCompleteness d).1 && !(collectFields d "").isEmpty

/-- A normalized record with one missing field whose missing_reason is
"not_reported": the low-confidence-or-missing ratio is 1 > 0.2, yet no
field is low-confidence or unclear, so nothing is collected for
verification. -/
def c6Record : JsonObj :=
  .cons "population" (.obj (.cons "x" (.obj
    (.cons "value" .null
      (.cons "confidence" .null
        (.cons "missing_reason" (.str "not_reported")
          (.cons "quotes" (.arr .nil) .nil))))) .nil)) .nil

/-- C6, as stated, is false: on `c6Record` (a Field-Normalizer fixed point)
the claimed ratio exceeds 0.2, but the pipeline issues no verification pass
because `_collect_fields_needing_verification` returns no paths (a missing
field with reason "not_reported" and no confidence is neither "low" nor
"unclear"), and `run_extraction` line 110 additionally requires a nonempty
list. -/
theorem c6_second_pass_counterexample :
    normMeta c6Record = c6Record ∧
    ((((computeCompleteness c6Record).1.low_confidence : Rat) +
        ((computeCompleteness c6Record).1.missing : Rat)) /
      ((max (computeCompleteness c6Record).1.total_fields 1 : Nat) : Rat)
        > 1 / 5) ∧
    triggersVerification c6Record = false := by
  refine ⟨by decide, ?_, ?_⟩
  · have h1 : (computeCompleteness c6Record).1 =
        ⟨1, 0, 1, 0, 0, 0, ⟨1, 0, 0, 0⟩⟩ := rfl
    rw [h1]
    norm_num
  · have hc : (collectFields c6Record "").isEmpty = true := by decide
    unfold triggersVerification
    rw [hc]
    simp

/-- C6 (amended): the pipeline issues a verification (second) pass iff
`(low_confidence + missing) / max(total_fields, 1) > 0.2` *and* at least
one field path needs verification (confidence "low" or missing_reason
"unclear"). -/
theorem c6_second_pass_amended (d : JsonObj) :
    triggersVerification d = true ↔
      (((((computeCompleteness d).1.low_confidence : Rat) +
          ((computeCompleteness d).1.missing : Rat)) /
        ((max (computeCompleteness d).1.total_fields 1 : Nat) : Rat)
          > 1 / 5) ∧
       collectFields d "" ≠ []) := by
  unfold triggersVerification needsVerify
  simp [List.isEmpty_iff]

/-- A validation warning (`validation_service.py` dict shape). -/
structure Warning where
  field_path : String
  severity : String
  check_name : String
  message : String
deriving DecidableEq

/-- `_get_field_value` (`validation_service.py:22-26`). -/
def getFieldValue (j : Json) : Json :=
  match j with
  | .obj o => if o.hasKey "value" then o.pyGet "value" else j
  | _ => j

def digitVal (c : Char) : Option Nat :=
  if 48 ≤ c.toNat && c.toNat ≤ 57 then some (c.toNat - 48) else none

def takeDigitsAux : List Char → Nat → Nat → Nat × Nat × List Char
  | [], acc, n => (acc, n, [])
  | c :: cs, acc, n =>
      match digitVal c with
      | none => (acc, n, c :: cs)
      | some d => takeDigitsAux cs (acc * 10 + d) (n + 1)

def isPySpace (c : Char) : Bool :=
  c == ' ' || c == '\t' || c == '\n' || c == '\r' ||
  c == Char.ofNat 11 || c == Char.ofNat 12

def stripPy (cs : List Char) : List Char :=
  ((cs.dropWhile isPySpace).reverse.dropWhile isPySpace).reverse

/-- Python `float(s)` on the decimal forms `[+-]digits[.digits]` (leading
and trailing whitespace stripped); exponent, infinity and nan spellings are
not modelled.  `none` is a `ValueError`. -/
def parseFloatChars (cs0 : List Char) : Option Rat :=
  let cs := stripPy cs0
  let sp : Rat × List Char :=
    match cs with
    | '-' :: rest => (-1, rest)
    | '+' :: rest => (1, rest)
    | _ => (1, cs)
  let ip := takeDigitsAux sp.2 0 0
  match ip.2.2 with
  | [] => if ip.2.1 = 0 then none else some (sp.1 * ip.1)
  | '.' :: cs3 =>
      let fp := takeDigitsAux cs3 0 0
      if fp.2.2.isEmpty && decide (0 < ip.2.1 + fp.2.1) then
        some (sp.1 * ((ip.1 : Rat) + (fp.1 : Rat) / (10 : Rat) ^ fp.2.1))
      else none
  | _ => none

/-- `_try_float` (`validation_service.py:29-36`): `float(val)`, with
`ValueError`/`TypeError` caught as `none` (`float(True) = 1.0`). -/
def tryFloat : Json → Option Rat
  | .null => none
  | .boolean b => some (if b then 1 else 0)
  | .num q => some q
  | .str s => parseFloatChars s.data
  | _ => none

/-- `int(q)` (truncation toward zero) rendered as a decimal string. -/
def pyIntStr (q : Rat) : String :=
  if q < 0 then "-" ++ natRepr ((-q).floor.toNat) else natRepr q.floor.toNat

/-- Round-half-even, Python's rounding for `format`. -/
def roundHalfEven (q : Rat) : Int :=
  if q - q.floor < 1 / 2 then q.floor
  else if q - q.floor > 1 / 2 then q.floor + 1
  else if q.floor % 2 = 0 then q.floor else q.floor + 1

/-- The `"{:.0%}"` format specifier. -/
def pctStr (q : Rat) : String :=
  (if roundHalfEven (q * 100) < 0 then
    "-" ++ natRepr (-(roundHalfEven (q * 100))).toNat
   else natRepr (roundHalfEven (q * 100)).toNat) ++ "%"

/-- The message of a sample-size warning (`validation_service.py:62-66`). -/
def ssMessage (nInt nCtrl total : Rat) : String :=
  "Intervention (" ++ pyIntStr nInt ++ ") + Control (" ++ pyIntStr nCtrl ++
  ") = " ++ pyIntStr (nInt + nCtrl) ++ ", but total sample size is " ++
  pyIntStr total ++ " (discrepancy: " ++
  pctStr (|nInt + nCtrl - total| / total) ++ ")"

/-- The per-outcome body of `_check_sample_size_consistency`
(`validation_service.py:51-67`). -/
def sampleSizeWarningAt (i : Nat) (outcome : JsonObj) (total_n : Rat) :
    List Warning :=
  match tryFloat (getFieldValue (outcome.pyGet "sample_size_intervention")),
        tryFloat (getFieldValue (outcome.pyGet "sample_size_control")) with
  | some nInt, some nCtrl =>
      if total_n > 0 ∧ |nInt + nCtrl - total_n| / total_n > 1 / 20 then
        [⟨"outcomes[" ++ natRepr i ++ "].sample_size", "warning",
          "sample_size_consistency", ssMessage nInt nCtrl total_n⟩]
      else []
  | _, _ => []

/-- The outcome loop (`validation_service.py:51-67`).  Each item is hit by
`outcome.get(...)`, so a non-dict item raises `AttributeError`; the raise
propagates out of the whole check (the warnings collected so far are
discarded), modelled as `none`. -/
def sampleSizeLoop (total_n : Rat) : JsonList → Nat → Option (List Warning)
  | .nil, _ => some []
  | .cons hd tl, i =>
      match hd with
      | .obj o =>
          match sampleSizeLoop total_n tl (i + 1) with
          | none => none
          | some ws => some (sampleSizeWarningAt i o total_n ++ ws)
      | _ => none

/-- `_check_sample_size_consistency` (`validation_service.py:39-69`).
`none` is an uncaught `AttributeError`: a present non-dict `population`
value (hit by `pop.get`) or a non-dict item of a list-valued `outcomes`
raises; an unparseable total or a non-list `outcomes` returns no warnings
before any outcome item is touched. -/
def checkSampleSizeConsistency (d : JsonObj) : Option (List Warning) :=
  match (d.get? "population").getD (.obj .nil) with
  | .obj pop =>
      (match tryFloat (getFieldValue (pop.pyGet "sample_size")) with
       | none => some []
       | some total_n =>
          match (d.get? "outcomes").getD (.arr .nil) with
          | .arr xs => sampleSizeLoop total_n xs 0
          | _ => some [])
  | _ => none

/-- Every item of the list is a dict — exactly the records on which the
outcome loop completes without an `AttributeError`. -/
def JsonList.allObjs : JsonList → Bool
  | .nil => true
  | .cons (.obj _) tl => tl.allObjs
  | .cons _ _ => false

def parseDecimal (cs : List Char) : Nat :=
  cs.foldl (fun acc c => acc * 10 + (c.toNat - 48)) 0

theorem digitChar_toNat (d : Nat) (h : d < 10) : (digitChar d).toNat = 48 + d := by
  interval_cases d <;> decide

theorem parseDecimal_append_digit (cs : List Char) (c : Char) :
    parseDecimal (cs ++ [c]) = parseDecimal cs * 10 + (c.toNat - 48) := by
  unfold parseDecimal
  rw [List.foldl_append]
  rfl

theorem parseDecimal_natDigitsAux : ∀ (fuel n : Nat), n < fuel →
    parseDecimal (natDigitsAux fuel n) = n
  | 0, n, h => absurd h (Nat.not_lt_zero n)
  | fuel + 1, n, h => by
      unfold natDigitsAux
      split
      · rename_i h10
        show parseDecimal [digitChar n] = n
        unfold parseDecimal
        simp only [List.foldl_cons, List.foldl_nil]
        rw [digitChar_toNat n h10]
        omega
      · rename_i h10
        rw [parseDecimal_append_digit,
          parseDecimal_natDigitsAux fuel (n / 10) (by omega),
          digitChar_toNat (n % 10) (by omega)]
        omega

theorem natDigits_inj (m n : Nat)
    (h : natDigitsAux (m + 1) m = natDigitsAux (n + 1) n) : m = n := by
  have h1 := parseDecimal_natDigitsAux (m + 1) m (by omega)
  have h2 := parseDecimal_natDigitsAux (n + 1) n (by omega)
  rw [h] at h1
  omega

theorem strAppend_data (a b : String) : (a ++ b).data = a.data ++ b.data := rfl

theorem samplePath_inj (i j : Nat)
    (h : "outcomes[" ++ natRepr i ++ "].sample_size" =
      "outcomes[" ++ natRepr j ++ "].sample_size") : i = j := by
  apply natDigits_inj
  have hdata := congrArg String.data h
  rw [strAppend_data, strAppend_data, strAppend_data, strAppend_data,
    List.append_assoc, List.append_assoc] at hdata
  have h1 := List.append_cancel_left hdata
  simp only [natRepr] at h1
  exact List.append_cancel_right h1

theorem sampleSizeLoop_some_of_allObjs : ∀ (xs : JsonList) (j : Nat) (t : Rat),
    xs.allObjs = true → ∃ ws, sampleSizeLoop t xs j = some ws
  | .nil, _, _, _ => ⟨[], rfl⟩
  | .cons (.obj o) tl, j, t, hall => by
      have htl : tl.allObjs = true := hall
      obtain ⟨ws, hws⟩ := sampleSizeLoop_some_of_allObjs tl (j + 1) t htl
      exact ⟨sampleSizeWarningAt j o t ++ ws, by
        simp only [sampleSizeLoop]
        rw [hws]⟩
  | .cons (.null) _, _, _, hall => by cases hall
  | .cons (.boolean _) _, _, _, hall => by cases hall
  | .cons (.num _) _, _, _, hall => by cases hall
  | .cons (.str _) _, _, _, hall => by cases hall
  | .cons (.arr _) _, _, _, hall => by cases hall

theorem sampleSizeLoop_mem_of : ∀ (xs : JsonList) (j i : Nat) (o : JsonObj)
    (t : Rat) (w : Warning) (ws : List Warning),
    sampleSizeLoop t xs j = some ws → xs.get? i = some (.obj o) →
    w ∈ sampleSizeWarningAt (j + i) o t → w ∈ ws
  | .nil, _, i, _, _, _, _, _, hg, _ => by cases hg
  | .cons hd tl, j, 0, o, t, w, ws, hws, hg, hw => by
      simp only [JsonList.get?] at hg
      injection hg with hg
      subst hg
      simp only [sampleSizeLoop] at hws
      cases htl : sampleSizeLoop t tl (j + 1) with
      | none => rw [htl] at hws; cases hws
      | some ws' =>
          rw [htl] at hws
          injection hws with hws
          subst hws
          exact List.mem_append.mpr (Or.inl hw)
  | .cons hd tl, j, i + 1, o, t, w, ws, hws, hg, hw => by
      simp only [JsonList.get?] at hg
      cases hd with
      | obj o' =>
          simp only [sampleSizeLoop] at hws
          cases htl : sampleSizeLoop t tl (j + 1) with
          | none => rw [htl] at hws; cases hws
          | some ws' =>
              rw [htl] at hws
              injection hws with hws
              subst hws
              refine List.mem_append.mpr (Or.inr
                (sampleSizeLoop_mem_of tl (j + 1) i o t w ws' htl hg ?_))
              have : j + 1 + i = j + (i + 1) := by omega
              rw [this]
              exact hw
      | null => cases hws
      | boolean b => cases hws
      | num q => cases hws
      | str s => cases hws
      | arr l => cases hws

theorem sampleSizeLoop_mem_inv : ∀ (xs : JsonList) (j : Nat) (t : Rat)
    (w : Warning) (ws : List Warning), sampleSizeLoop t xs j = some ws →
    w ∈ ws →
    ∃ (i : Nat) (o : JsonObj), xs.get? i = some (.obj o) ∧
      w ∈ sampleSizeWarningAt (j + i) o t
  | .nil, _, _, _, ws, hws, hw => by
      injection hws with hws
      subst hws
      cases hw
  | .cons hd tl, j, t, w, ws, hws, hw => by
      cases hd with
      | obj o =>
          simp only [sampleSizeLoop] at hws
          cases htl : sampleSizeLoop t tl (j + 1) with
          | none => rw [htl] at hws; cases hws
          | some ws' =>
              rw [htl] at hws
              injection hws with hws
              subst hws
              rcases List.mem_append.mp hw with hw | hw
              · exact ⟨0, o, rfl, by simpa using hw⟩
              · obtain ⟨i, o', hg, hmem⟩ :=
                  sampleSizeLoop_mem_inv tl (j + 1) t w ws' htl hw
                refine ⟨i + 1, o', hg, ?_⟩
                have : j + (i + 1) = j + 1 + i := by omega
                rw [this]
                exact hmem
      | null => cases hws
      | boolean b => cases hws
      | num q => cases hws
      | str s => cases hws
      | arr l => cases hws

/-- In rational arithmetic, the claim's bare formula already forces a
positive total (`|x| / t ≤ 0` for `t ≤ 0`, with `x / 0 = 0`). -/
theorem ratio_pos_total (x t : Rat) (h : |x| / t > 1 / 20) : t > 0 := by
  rcases lt_trichotomy t 0 with ht | ht | ht
  · have hx : |x| ≥ 0 := abs_nonneg x
    have : |x| / t ≤ 0 := div_nonpos_of_nonneg_of_nonpos hx (le_of_lt ht)
    linarith
  · rw [ht] at h
    norm_num at h
  · exact ht

/-- The record of C8's concrete instance: total sample size 100, one
outcome with arms 40 and 40. -/
def c8Record : JsonObj :=
  .cons "population"
    (.obj (.cons "sample_size" (.obj (.cons "value" (.num 100) .nil)) .nil))
    (.cons "outcomes" (.arr (.cons (.obj
      (.cons "sample_size_intervention" (.obj (.cons "value" (.num 40) .nil))
        (.cons "sample_size_control" (.obj (.cons "value" (.num 40) .nil))
          .nil))) .nil)) .nil)

def c8Pop : JsonObj :=
  .cons "sample_size" (.obj (.cons "value" (.num 100) .nil)) .nil

def c8Outcome : JsonObj :=
  .cons "sample_size_intervention" (.obj (.cons "value" (.num 40) .nil))
    (.cons "sample_size_control" (.obj (.cons "value" (.num 40) .nil)) .nil)

/-- The C8 record with a stray non-dict item in front of the 40/40
outcome. -/
def c8BadRecord : JsonObj :=
  .cons "population" (.obj c8Pop)
    (.cons "outcomes"
      (.arr (.cons (.str "junk") (.cons (.obj c8Outcome) .nil))) .nil)

/-- C8 fails as stated: `c8BadRecord` has a dict population with parseable
total 100 and an outcome with parseable arms 40 and 40 whose discrepancy
20 % exceeds 5 %, yet the checker raises an uncaught `AttributeError`
(modelled `none`) at the non-dict outcomes item `"junk"` — `outcome.get`
is called on every item of the list — so no warning is emitted. -/
theorem c8_sample_size_consistency_counterexample :
    (c8BadRecord.get? "population").getD (.obj .nil) = .obj c8Pop ∧
    tryFloat (getFieldValue (c8Pop.pyGet "sample_size")) = some 100 ∧
    (c8BadRecord.get? "outcomes").getD (.arr .nil) =
      .arr (.cons (.str "junk") (.cons (.obj c8Outcome) .nil)) ∧
    (.cons (.str "junk") (.cons (.obj c8Outcome) .nil) : JsonList).get? 1 =
      some (.obj c8Outcome) ∧
    tryFloat (getFieldValue (c8Outcome.pyGet "sample_size_intervention")) =
      some 40 ∧
    tryFloat (getFieldValue (c8Outcome.pyGet "sample_size_control")) =
      some 40 ∧
    |(40 : Rat) + 40 - 100| / 100 > 1 / 20 ∧
    checkSampleSizeConsistency c8BadRecord = none :=
  ⟨rfl, rfl, rfl, rfl, rfl, rfl, by norm_num, rfl⟩

/-- C8 amended: for every record whose `population` is a dict with a
parseable numeric sample size `t`, whose `outcomes` is a list of dicts
(a non-dict item would make the checker raise `AttributeError`), and whose
outcome at index `i` has parseable per-arm sizes `a` and `b`, the
Consistency Checker completes and emits a `sample_size_consistency`
warning for that outcome exactly when `|a + b − t| / t > 0.05` (in exact
rational arithmetic a positive ratio already forces `t > 0`, matching the
code's extra `total_n > 0` guard). -/
theorem c8_sample_size_consistency_amended (d : JsonObj) (pop : JsonObj)
    (xs : JsonList) (i : Nat) (o : JsonObj) (t a b : Rat)
    (hpop : (d.get? "population").getD (.obj .nil) = .obj pop)
    (ht : tryFloat (getFieldValue (pop.pyGet "sample_size")) = some t)
    (houts : (d.get? "outcomes").getD (.arr .nil) = .arr xs)
    (hall : xs.allObjs = true)
    (hi : xs.get? i = some (.obj o))
    (ha : tryFloat (getFieldValue (o.pyGet "sample_size_intervention")) = some a)
    (hb : tryFloat (getFieldValue (o.pyGet "sample_size_control")) = some b) :
    ∃ ws, checkSampleSizeConsistency d = some ws ∧
      ((∃ w ∈ ws,
          w.field_path = "outcomes[" ++ natRepr i ++ "].sample_size" ∧
          w.check_name = "sample_size_consistency" ∧ w.severity = "warning") ↔
        |a + b - t| / t > 1 / 20) := by
  obtain ⟨ws, hws⟩ := sampleSizeLoop_some_of_allObjs xs 0 t hall
  refine ⟨ws, ?_, ?_⟩
  · unfold checkSampleSizeConsistency
    rw [hpop]
    dsimp only
    rw [ht]
    dsimp only
    rw [houts]
    dsimp only
    exact hws
  constructor
  · rintro ⟨w, hw, hpath, _, _⟩
    obtain ⟨j, o', hj, hmem⟩ := sampleSizeLoop_mem_inv xs 0 t w ws hws hw
    rw [Nat.zero_add] at hmem
    unfold sampleSizeWarningAt at hmem
    split at hmem
    · rename_i nInt nCtrl hpa hpb
      split at hmem
      · rename_i hcond
        simp only [List.mem_singleton] at hmem
        subst hmem
        have hij : j = i := samplePath_inj j i hpath
        subst hij
        rw [hi] at hj
        injection hj with hj
        injection hj with hj
        subst hj
        rw [ha] at hpa
        injection hpa with hpa
        rw [hb] at hpb
        injection hpb with hpb
        subst hpa
        subst hpb
        exact hcond.2
      · cases hmem
    · cases hmem
  · intro hgt
    have htpos := ratio_pos_total (a + b - t) t hgt
    refine ⟨⟨"outcomes[" ++ natRepr i ++ "].sample_size", "warning",
      "sample_size_consistency", ssMessage a b t⟩, ?_, rfl, rfl, rfl⟩
    have hmem : (⟨"outcomes[" ++ natRepr i ++ "].sample_size", "warning",
        "sample_size_consistency", ssMessage a b t⟩ : Warning) ∈
        sampleSizeWarningAt (0 + i) o t := by
      rw [Nat.zero_add]
      unfold sampleSizeWarningAt
      rw [ha, hb]
      dsimp only
      rw [if_pos ⟨htpos, hgt⟩]
      exact List.mem_singleton_self _
    exact sampleSizeLoop_mem_of xs 0 i o t _ ws hws hi hmem

/-- Witness for C8 (amended) at the claim's concrete instance: total 100
with arms 40 and 40 (discrepancy 20 % > 5 %) yields the warning. -/
theorem c8_sample_size_consistency_amended_witness :
    ∃ ws, checkSampleSizeConsistency c8Record = some ws ∧
      ∃ w ∈ ws,
        w.field_path = "outcomes[" ++ natRepr 0 ++ "].sample_size" ∧
        w.check_name = "sample_size_consistency" ∧ w.severity = "warning" := by
  obtain ⟨ws, hws, hiff⟩ := c8_sample_size_consistency_amended c8Record c8Pop
    (.cons (.obj c8Outcome) .nil) 0 c8Outcome 100 40 40
    rfl rfl rfl rfl rfl rfl rfl
  exact ⟨ws, hws, hiff.mpr (by norm_num)⟩

/-- Python `str.strip()`. -/
def pyStrip (s : String) : String := String.mk (stripPy s.data)

/-- Index of the first occurrence of `pat` at or after the current
position; `none` when absent.  Python's `str.index` raises `ValueError`
in the `none` case; `"sub" in text` is true iff the index exists. -/
def indexOfAux (pat : List Char) : List Char → Nat → Option Nat
  | [], idx => if pat.isEmpty then some idx else none
  | c :: cs, idx =>
      if pat.isPrefixOf (c :: cs) then some idx
      else indexOfAux pat cs (idx + 1)

/-- Python `text[a:b]` for in-range `a ≤ b`. -/
def sliceChars (cs : List Char) (a b : Nat) : List Char := (cs.take b).drop a

/-- The degraded record `{error, raw_text}`
(`extraction_service.py:200`). -/
def degraded (text : String) : Json :=
  .obj (.cons "error" (.str "Failed to parse response")
    (.cons "raw_text" (.str text) .nil))

/-- `json.loads(text)` guarded by `except json.JSONDecodeError`
(`extraction_service.py:196-200`); the parser itself is the Python
standard library, abstracted as `loads`. -/
def tryLoads (loads : String → Option Json) (text : String) : Json :=
  match loads text with
  | some j => j
  | none => degraded text

/-- `_parse_extraction_response` (`extraction_service.py:182-200`).
`Except.error` models an uncaught Python exception: `text.index("```",
start)` raises `ValueError` when an opening fence has no closing fence,
and only `json.JSONDecodeError` is caught. -/
def parseExtractionResponse (loads : String → Option Json) (text0 : String) :
    Except String Json :=
  let text := pyStrip text0
  match indexOfAux "```json".data text.data 0 with
  | some idx =>
      (match indexOfAux "```".data (text.data.drop (idx + 7)) 0 with
       | none => .error "ValueError"
       | some rel =>
          .ok (tryLoads loads (String.mk (stripPy
            (sliceChars text.data (idx + 7) (idx + 7 + rel))))))
  | none =>
      match indexOfAux "```".data text.data 0 with
      | some idx =>
          (match indexOfAux "```".data (text.data.drop (idx + 3)) 0 with
           | none => .error "ValueError"
           | some rel =>
              .ok (tryLoads loads (String.mk (stripPy
                (sliceChars text.data (idx + 3) (idx + 3 + rel))))))
      | none => .ok (tryLoads loads text)

/-- C3 (code bug): the claim — and spec §6/§7 — require that parsing never
raises and that a parse failure yield the degraded `{error, raw_text}`
record, but on an input whose opening fence has no closing fence (here
`"```json\nabc"`), `text.index("```", start)` raises an uncaught
`ValueError` (`extraction_service.py:189`), for every JSON parser.  On
fence-free input the no-raise contract does hold: a failing parse yields
the degraded record, a successful parse the parsed value; and a well-fenced
input is unfenced before parsing. -/
theorem c3_parse_never_raises_bug :
    (∀ loads : String → Option Json,
      parseExtractionResponse loads "```json\nabc" =
        .error "ValueError") ∧
    (∀ loads : String → Option Json,
      parseExtractionResponse loads "```json\n{}\n```" =
        .ok (tryLoads loads "{}")) ∧
    (parseExtractionResponse (fun _ => none) "not json" =
      .ok (degraded "not json")) ∧
    (∀ j : Json, parseExtractionResponse (fun _ => some j) "not json" =
      .ok j) :=
  ⟨fun _ => rfl, fun _ => rfl, rfl, fun _ => rfl⟩

/-- A word with its bounding box, as in `page.get_text("words",
sort=True)`. -/
structure Word where
  x0 : Rat
  y0 : Rat
  x1 : Rat
  y1 : Rat
  text : String

/-- A quad's rectangle from `page.search_for(quote, quads=True)`. -/
structure RectQ where
  x0 : Rat
  y0 : Rat
  x1 : Rat
  y1 : Rat

/-- A loaded page, per the spec's Document-loader interface: plain text,
dimensions, words with boxes, and pymupdf's exact search results
(`search_for` is the external library's; it is abstracted as a field). -/
structure Page where
  width : Rat
  height : Rat
  text : String
  words : List Word
  searchFor : String → List RectQ

/-- A `SourceLocation` dict (`pdf_service.py:132-139`). -/
structure Loc where
  page : Nat
  x0 : Rat
  y0 : Rat
  x1 : Rat
  y1 : Rat
  text : String
deriving DecidableEq

/-- Python `round(x, 4)` (round-half-even), on exact rationals. -/
def round4 (q : Rat) : Rat := (roundHalfEven (q * 10000) : Rat) / 10000

/-- The locations built from one page's exact matches
(`pdf_service.py:128-139`): every quad's rect, normalized by page size,
rounded to 4 decimals, 1-based page number. -/
def quadLocations (pnum : Nat) (p : Page) (quote : String) : List Loc :=
  (p.searchFor quote).map (fun r =>
    ⟨pnum + 1, round4 (r.x0 / p.width), round4 (r.y0 / p.height),
      round4 (r.x1 / p.width), round4 (r.y1 / p.height), quote⟩)

/-- The exact pass of `find_quote_locations` (`pdf_service.py:126-142`):
stop at the first page with at least one match and return that page's
locations. -/
def exactPass (quote : String) : List Page → Nat → List Loc
  | [], _ => []
  | p :: ps, n =>
      if (quadLocations n p quote).isEmpty then exactPass quote ps (n + 1)
      else quadLocations n p quote

/-- The sliding-window loop of `_fuzzy_find_quote`
(`pdf_service.py:168-181`), parametrized by the external
`SequenceMatcher.quick_ratio` and `.ratio` functions; the state is
`(best_ratio, best_pos)`. -/
def slideLoop (qr full : List Char → List Char → Rat) (q cs : List Char)
    (qlen : Nat) : List Nat → Rat × Int → Rat × Int
  | [], acc => acc
  | i :: rest, acc =>
      slideLoop qr full q cs qlen rest
        (if qr q ((cs.drop i).take qlen) > acc.1 then
          (if full q ((cs.drop i).take qlen) > acc.1 then
            (full q ((cs.drop i).take qlen), (i : Int))
          else acc)
        else acc)

/-- The word-overlap scan (`pdf_service.py:188-196`): a word is relevant
when its character span `[cc, cc + len + 1)` overlaps the matched range. -/
def relevantWords : List Word → Nat → Nat → Nat → List Word
  | [], _, _, _ => []
  | w :: rest, cc, pos, qlen =>
      (if cc + w.text.length + 1 > pos ∧ cc < pos + qlen then [w] else []) ++
        relevantWords rest (cc + w.text.length + 1) pos qlen

/-- The accepted-match location of the fuzzy pass
(`pdf_service.py:183-210`): union of the relevant words' boxes, normalized
and rounded; no location when no relevant word. -/
def fuzzyLocation (p : Page) (n pos qlen : Nat) : List Loc :=
  match relevantWords p.words 0 pos qlen with
  | [] => []
  | w :: rest =>
      [⟨n + 1,
        round4 ((rest.foldl (fun acc v => min acc v.x0) w.x0) / p.width),
        round4 ((rest.foldl (fun acc v => min acc v.y0) w.y0) / p.height),
        round4 ((rest.foldl (fun acc v => max acc v.x1) w.x1) / p.width),
        round4 ((rest.foldl (fun acc v => max acc v.y1) w.y1) / p.height),
        String.mk ((p.text.data.drop pos).take qlen)⟩]

/-- `_fuzzy_find_quote` (`pdf_service.py:153-214`): lower-case quote and
page text, skip short pages, slide a window of the quote's length with
stride `max(1, len // 10)`, accept the best window when its ratio reaches
0.85, and stop at the first accepting page (which may still yield no
location when the page has no words or none overlap). -/
def fuzzyAux (qr full : List Char → List Char → Rat) (quoteL : List Char) :
    List Page → Nat → List Loc
  | [], _ => []
  | p :: ps, n =>
      if (strLower p.text).data.length < quoteL.length then
        fuzzyAux qr full quoteL ps (n + 1)
      else
        match slideLoop qr full quoteL (strLower p.text).data quoteL.length
          (List.range' 0
            (((strLower p.text).data.length - quoteL.length + 1 +
                (max 1 (quoteL.length / 10)) - 1) /
              (max 1 (quoteL.length / 10)))
            (max 1 (quoteL.length / 10))) (0, -1) with
        | (best, pos) =>
            if best ≥ 17 / 20 ∧ pos ≥ 0 then
              (if p.words.isEmpty then [] else
                fuzzyLocation p n pos.toNat quoteL.length)
            else fuzzyAux qr full quoteL ps (n + 1)

def fuzzyFindQuote (qr full : List Char → List Char → Rat)
    (doc : List Page) (quote : String) : List Loc :=
  fuzzyAux qr full (strLower quote).data doc 0

/-- `find_quote_locations` (`pdf_service.py:121-150`): the exact pass, then
the fuzzy fallback only if it produced nothing. -/
def findQuoteLocations (qr full : List Char → List Char → Rat)
    (doc : List Page) (quote : String) : List Loc :=
  if (exactPass quote doc 0).isEmpty then fuzzyFindQuote qr full doc quote
  else exactPass quote doc 0

/-- The first page index with an exact match — the claim's "page P". -/
def firstHitIdxAux (quote : String) : List Page → Nat → Option Nat
  | [], _ => none
  | p :: ps, n =>
      if (p.searchFor quote).isEmpty then firstHitIdxAux quote ps (n + 1)
      else some n

def firstHitIdx (doc : List Page) (quote : String) : Option Nat :=
  firstHitIdxAux quote doc 0

theorem quadLocations_isEmpty (n : Nat) (p : Page) (quote : String) :
    (quadLocations n p quote).isEmpty = (p.searchFor quote).isEmpty := by
  unfold quadLocations
  cases p.searchFor quote <;> rfl

theorem exactPass_spec (quote : String) : ∀ (doc : List Page) (n : Nat),
    (firstHitIdxAux quote doc n = none → exactPass quote doc n = []) ∧
    (∀ m, firstHitIdxAux quote doc n = some m →
      n ≤ m ∧ ∃ p, doc.get? (m - n) = some p ∧
        (p.searchFor quote).isEmpty = false ∧
        exactPass quote doc n = quadLocations m p quote)
  | [], n => ⟨fun _ => rfl, fun m hm => by cases hm⟩
  | p :: ps, n => by
      constructor
      · intro hnone
        unfold firstHitIdxAux at hnone
        unfold exactPass
        rw [quadLocations_isEmpty]
        split at hnone
        · rename_i hemp
          rw [if_pos hemp]
          exact (exactPass_spec quote ps (n + 1)).1 hnone
        · cases hnone
      · intro m hm
        unfold firstHitIdxAux at hm
        unfold exactPass
        rw [quadLocations_isEmpty]
        split at hm
        · rename_i hemp
          rw [if_pos hemp]
          obtain ⟨hle, q, hq, hne, he⟩ :=
            (exactPass_spec quote ps (n + 1)).2 m hm
          refine ⟨by omega, q, ?_, hne, he⟩
          have : m - n = (m - (n + 1)) + 1 := by omega
          rw [this]
          exact hq
        · rename_i hemp
          injection hm with hm
          subst hm
          refine ⟨le_refl n, ⟨p, ?_, ?_, ?_⟩⟩
          · simp
          · cases hx : (p.searchFor quote).isEmpty
            · rfl
            · exact absurd hx hemp
          · rw [if_neg hemp]

/-- C7: for every document, quote, and similarity oracles, if the exact
search pass finds a match on some page (`firstHitIdx` names the first such
page P), the Locator returns exactly that page's exact-match locations —
nonempty, all carrying P's 1-based page number, independent of the
similarity functions — and the fuzzy fallback result is returned only when
no page has an exact match. -/
theorem c7_locator_exact_precedence (qr full : List Char → List Char → Rat)
    (doc : List Page) (quote : String) :
    (∀ i, firstHitIdx doc quote = some i →
      ∃ p, doc.get? i = some p ∧
        findQuoteLocations qr full doc quote = quadLocations i p quote ∧
        findQuoteLocations qr full doc quote ≠ [] ∧
        ∀ loc ∈ findQuoteLocations qr full doc quote, loc.page = i + 1) ∧
    (firstHitIdx doc quote = none →
      findQuoteLocations qr full doc quote = fuzzyFindQuote qr full doc quote) := by
  constructor
  · intro i hi
    obtain ⟨_, p, hp, hne, he⟩ := (exactPass_spec quote doc 0).2 i hi
    rw [Nat.sub_zero] at hp
    have hfalse : (quadLocations i p quote).isEmpty = false := by
      rw [quadLocations_isEmpty]
      exact hne
    have hfind : findQuoteLocations qr full doc quote = quadLocations i p quote := by
      unfold findQuoteLocations
      rw [he]
      simp [hfalse]
    refine ⟨p, hp, hfind, ?_, ?_⟩
    · rw [hfind]
      intro h0
      rw [h0] at hfalse
      simp at hfalse
    · rw [hfind]
      intro loc hloc
      unfold quadLocations at hloc
      simp only [List.mem_map] at hloc
      obtain ⟨r, _, hr⟩ := hloc
      rw [← hr]
  · intro hnone
    have he := (exactPass_spec quote doc 0).1 hnone
    unfold findQuoteLocations
    rw [he]
    rfl

def c7PageA : Page := ⟨10, 10, "alpha", [], fun _ => []⟩

def c7PageB : Page :=
  ⟨10, 10, "beta needle", [],
    fun q => if q = "needle" then [⟨1, 2, 3, 4⟩] else []⟩

def c7Doc : List Page := [c7PageA, c7PageB]

def c7qr : List Char → List Char → Rat := fun _ _ => 0

/-- Witness for C7 on a two-page document whose second page has the exact
match. -/
theorem c7_locator_exact_precedence_witness :
    firstHitIdx c7Doc "needle" = some 1 ∧
    (∃ p, c7Doc.get? 1 = some p ∧
      findQuoteLocations c7qr c7qr c7Doc "needle" = quadLocations 1 p "needle" ∧
      findQuoteLocations c7qr c7qr c7Doc "needle" ≠ [] ∧
      ∀ loc ∈ findQuoteLocations c7qr c7qr c7Doc "needle", loc.page = 1 + 1) :=
  ⟨rfl, (c7_locator_exact_precedence c7qr c7qr c7Doc "needle").1 1 rfl⟩

end DataExtraction
